import Mathlib

/-!
Verification of the terminal-output acquisition and extraction engine of
SecureCrtScript (src/get_ip_info.py): the sanitizer built from the two
module-level regular expressions, prompt detection, the pagination read
loop, the output trimmer, the routing-table parser, the classification
decision table from main, and the per-target batch loop.

Strings are modelled as Lean String / List Char; Python string methods
(strip, split, splitlines, find, startswith, endswith, slicing) are
re-implemented character by character.  The two regular expressions are
modelled as explicit scanners; both patterns are deterministic (every
greedy sub-pattern is bounded by a character class disjoint from what
follows), so the scanners compute exactly the leftmost re.sub matches.
-/

namespace SecureCrt

/-! ## Python character classes -/

/-- Whitespace as Python treats it for str.strip / str.split and for
the regex class backslash-s on str patterns: ASCII whitespace, the
separator control characters, and the Unicode space characters. -/
def isPySpace (c : Char) : Bool :=
  c == ' ' || c == '\t' || c == '\n' || c == '\x0b' || c == '\x0c' || c == '\r' ||
  c == '\x1c' || c == '\x1d' || c == '\x1e' || c == '\x1f' || c == '\x85' || c == '\xa0' ||
  c == '\u1680' || (decide ('\u2000' ≤ c) && decide (c ≤ '\u200a')) ||
  c == '\u2028' || c == '\u2029' || c == '\u202f' || c == '\u205f' || c == '\u3000'

/-- Line boundaries recognised by Python str.splitlines (CR LF is
handled as a single boundary in `splitLinesGo`). -/
def isLineBreak (c : Char) : Bool :=
  c == '\n' || c == '\r' || c == '\x0b' || c == '\x0c' ||
  c == '\x1c' || c == '\x1d' || c == '\x1e' || c == '\x85' ||
  c == '\u2028' || c == '\u2029'

/-! ## Python string primitives -/

/-- Worker for `pySplitLines`; `cur` is the current line, reversed. -/
def splitLinesGo : List Char → List Char → List String
  | [], cur => if cur.isEmpty then [] else [String.mk cur.reverse]
  | '\r' :: '\n' :: rest, cur => String.mk cur.reverse :: splitLinesGo rest []
  | c :: rest, cur =>
    if isLineBreak c then String.mk cur.reverse :: splitLinesGo rest []
    else splitLinesGo rest (c :: cur)

/-- Python str.splitlines: no trailing empty line after a final break,
and the empty string yields no lines. -/
def pySplitLines (s : String) : List String := splitLinesGo s.data []

/-- Python str.lstrip(). -/
def pyLstrip (s : String) : String := String.mk (s.data.dropWhile isPySpace)

/-- Python str.rstrip(). -/
def pyRstrip (s : String) : String := String.mk (s.data.reverse.dropWhile isPySpace).reverse

/-- Python str.strip(). -/
def pyStrip (s : String) : String := pyRstrip (pyLstrip s)

/-- Worker for `pySplitWs`; `cur` is the current token, reversed. -/
def pySplitWsAux : List Char → List Char → List String
  | [], cur => if cur.isEmpty then [] else [String.mk cur.reverse]
  | c :: cs, cur =>
    if isPySpace c then
      if cur.isEmpty then pySplitWsAux cs [] else String.mk cur.reverse :: pySplitWsAux cs []
    else pySplitWsAux cs (c :: cur)

/-- Python str.split() with no argument: split on whitespace runs,
producing no empty tokens. -/
def pySplitWs (s : String) : List String := pySplitWsAux s.data []

/-- Decides whether the second list starts with the first. -/
def isPrefixL : List Char → List Char → Bool
  | [], _ => true
  | _ :: _, [] => false
  | a :: ps, b :: ls => a == b && isPrefixL ps ls

/-- Decides whether the second list ends with the first. -/
def isSuffixL (p l : List Char) : Bool := isPrefixL p.reverse l.reverse

/-- Decides whether `sub` occurs somewhere inside `l` (Python `in`). -/
def containsL : List Char → List Char → Bool
  | sub, [] => sub.isEmpty
  | sub, c :: cs => isPrefixL sub (c :: cs) || containsL sub cs

/-- Python `sub in s` on strings. -/
def containsSub (s sub : String) : Bool := containsL sub.data s.data

/-- Python s.startswith(p). -/
def pyStartsWith (s p : String) : Bool := isPrefixL p.data s.data

/-- Python s.endswith(p). -/
def pyEndsWith (s p : String) : Bool := isSuffixL p.data s.data

/-- Worker for `findSub`: index of the first occurrence, counting from `i`. -/
def findSubAux (sub : List Char) : List Char → Nat → Option Nat
  | [], i => if isPrefixL sub [] then some i else none
  | c :: cs, i => if isPrefixL sub (c :: cs) then some i else findSubAux sub cs (i + 1)

/-- Python s.find(sub): index of the first occurrence (None for -1). -/
def findSub (s sub : String) : Option Nat := findSubAux sub.data s.data 0

/-- Python s[:-k] on a list of characters: for k = 0 the slice is empty
(Python reads -0 as 0), otherwise the last k characters are dropped. -/
def pySliceToNeg (l : List Char) (k : Nat) : List Char :=
  if k = 0 then [] else l.take (l.length - k)

/-! ## The sanitizer: clean_terminal_output

The first module-level pattern (_LINE_OVERWRITE_PATTERN) is
whitespace-run, ESC [ digits D, whitespace-run of length at least one,
ESC [ digits D; each match is replaced by one newline.  The second
(_ANSI_ESCAPE_PATTERN) is ESC followed by either a CSI body
(parameter bytes 0x30-0x3F, intermediate bytes 0x20-0x2F, one final
byte 0x40-0x7E) or an OSC body (any characters except newline, lazily,
up to BEL or ESC backslash); each match is deleted. -/

/-- Parameter bytes of a CSI sequence: the regex class from 0 to ?. -/
def inParamByte (c : Char) : Bool := decide (0x30 ≤ c.toNat) && decide (c.toNat ≤ 0x3F)

/-- Intermediate bytes of a CSI sequence: the regex class from space to slash. -/
def inInterByte (c : Char) : Bool := decide (0x20 ≤ c.toNat) && decide (c.toNat ≤ 0x2F)

/-- Final bytes of a CSI sequence: the regex class from @ to tilde. -/
def inFinalByte (c : Char) : Bool := decide (0x40 ≤ c.toNat) && decide (c.toNat ≤ 0x7E)

/-- One cursor-back unit of the line-overwrite pattern: ESC [ digits D.
Digits are consumed greedily; since D is not a digit the parse is the
unique one the regex engine finds. -/
def parseUnit : List Char → Option (List Char)
  | '\x1b' :: '[' :: c :: rest =>
    if c.isDigit then
      match (c :: rest).dropWhile Char.isDigit with
      | 'D' :: r => some r
      | _ => none
    else none
  | _ => none

/-- After the first cursor-back unit: require at least one whitespace
character, consume the whitespace run greedily, then parse the second
cursor-back unit. -/
def afterUnit1 : List Char → Option (List Char)
  | [] => none
  | c :: cs =>
    if isPySpace c then parseUnit ((c :: cs).dropWhile isPySpace) else none

/-- A match of _LINE_OVERWRITE_PATTERN starting at the head of `l`:
leading whitespace, a cursor-back unit, at least one whitespace
character, a second cursor-back unit.  Returns the rest of the input
after the match.  Whitespace runs are consumed greedily; since ESC is
not whitespace the parse is deterministic. -/
def tryMatch1 (l : List Char) : Option (List Char) :=
  (parseUnit (l.dropWhile isPySpace)).bind afterUnit1

/-- The lazy OSC body scan: consume characters other than newline until
BEL or ESC backslash; fail at end of input or at a newline (the regex
dot does not match a newline). -/
def oscScan : List Char → Option (List Char)
  | [] => none
  | '\x07' :: rest => some rest
  | '\x1b' :: '\\' :: rest => some rest
  | c :: rest => if c = '\n' then none else oscScan rest

/-- After the parameter and intermediate bytes of a CSI body: require
one final byte. -/
def csiTail : List Char → Option (List Char)
  | c :: r3 => if inFinalByte c then some r3 else none
  | [] => none

/-- The part of an _ANSI_ESCAPE_PATTERN match after the leading ESC:
either a CSI body or an OSC body. -/
def escBody : List Char → Option (List Char)
  | '[' :: rest => csiTail ((rest.dropWhile inParamByte).dropWhile inInterByte)
  | ']' :: rest => oscScan rest
  | _ => none

/-- A match of _ANSI_ESCAPE_PATTERN starting at the head of `l`:
ESC then either a CSI body or an OSC body.  The three CSI classes are
pairwise disjoint, so the greedy parse is the unique one. -/
def tryMatch2 : List Char → Option (List Char)
  | '\x1b' :: rest => escBody rest
  | _ => none

/-- Left-to-right re.sub scan for the line-overwrite pattern, replacing
each match with one newline.  Fuelled so that the kernel can evaluate
it; `sub1` supplies the input length as fuel, which always suffices
because a match consumes at least one character. -/
def sub1Go : Nat → List Char → List Char
  | 0, l => l
  | _ + 1, [] => []
  | f + 1, c :: cs =>
    match tryMatch1 (c :: cs) with
    | some rest => '\n' :: sub1Go f rest
    | none => c :: sub1Go f cs

/-- Step 1 of the sanitizer: _LINE_OVERWRITE_PATTERN.sub with a newline. -/
def sub1 (l : List Char) : List Char := sub1Go l.length l

/-- Left-to-right re.sub scan for the ANSI escape pattern, deleting
each match.  Fuelled like `sub1Go`. -/
def sub2Go : Nat → List Char → List Char
  | 0, l => l
  | _ + 1, [] => []
  | f + 1, c :: cs =>
    match tryMatch2 (c :: cs) with
    | some rest => sub2Go f rest
    | none => c :: sub2Go f cs

/-- Step 2 of the sanitizer: _ANSI_ESCAPE_PATTERN.sub with the empty string. -/
def sub2 (l : List Char) : List Char := sub2Go l.length l

/-- clean_terminal_output: replace the pagination line-overwrite
sequences by newlines first, then delete the remaining ANSI escapes. -/
def clean_terminal_output (text : String) : String :=
  String.mk (sub2 (sub1 text.data))

/-! ## Prompt detection: get_prompt

The script reads the cursor row from column 1 up to CurrentColumn - 1
(Screen.Get is inclusive on both ends, so this is the first
CurrentColumn - 1 characters of the row), strips it, and gives up when
the result is empty.  The screen row and the cursor column are the
external session's state and are passed in. -/

/-- get_prompt on the current screen row and cursor column; `none` is
the NoPrompt failure. -/
def get_prompt (rowText : String) (currentColumn : Nat) : Option String :=
  let p := pyStrip (String.mk (rowText.data.take (currentColumn - 1)))
  if p = "" then none else some p

/-! ## The read loop of send_command_and_read_output

ReadString and MatchIndex are the external session's behaviour; a
scripted session is a list of (captured text, MatchIndex) pairs, one
per ReadString call.  MatchIndex 1 is the pagination sentinel
"---- More ----" (the loop sends one space and keeps reading, counted
here), 2 is the prompt (clean finish), 0 is a timeout (the loop stops
and logs a warning), anything else stops with a warning as well.
A real session always answers a ReadString, so a script that runs out
before a terminating index models nothing and yields `none`. -/

/-- How the read loop ended. -/
inductive ReadEnd where
  | promptFound : ReadEnd
  | timedOut : ReadEnd
  | unknownIdx : ReadEnd
deriving DecidableEq

/-- The read loop: returns the accumulated capture, the number of
spaces sent for pagination, and how the loop ended. -/
def readLoop : List (String × Nat) → String → Nat → Option (String × Nat × ReadEnd)
  | [], _, _ => none
  | (chunk, idx) :: rest, acc, spaces =>
    if idx = 1 then readLoop rest (acc ++ chunk) (spaces + 1)
    else if idx = 2 then some (acc ++ chunk, spaces, ReadEnd.promptFound)
    else if idx = 0 then some (acc ++ chunk, spaces, ReadEnd.timedOut)
    else some (acc ++ chunk, spaces, ReadEnd.unknownIdx)

/-! ## The output trimmer of send_command_and_read_output -/

/-- Step 2 of the cleanup: remove the command echo.  If the cleaned
output, after leading whitespace, starts with the stripped command,
drop everything up to and including the first occurrence of the
command and strip the leading whitespace that follows. -/
def removeEcho (command cleaned : String) : String :=
  let commandSent := pyStrip command
  if isPrefixL commandSent.data (pyLstrip cleaned).data then
    match findSub cleaned commandSent with
    | some i => pyLstrip (String.mk (cleaned.data.drop (i + commandSent.data.length)))
    | none => cleaned
  else cleaned

/-- Step 3 of the cleanup: if the output, after trailing whitespace,
ends with the prompt, drop the prompt and strip trailing whitespace. -/
def removePromptSuffix (promptStr cleaned : String) : String :=
  let r := pyRstrip cleaned
  if isSuffixL promptStr.data r.data then
    pyRstrip (String.mk (pySliceToNeg r.data promptStr.data.length))
  else cleaned

/-- Steps 2-4 of the cleanup applied to already-sanitized text: echo
removal, prompt removal, final strip. -/
def trimOutput (command promptStr sanitized : String) : String :=
  pyStrip (removePromptSuffix promptStr (removeEcho command sanitized))

/-- send_command_and_read_output against a scripted session: run the
read loop, sanitize the capture, trim echo and prompt. -/
def send_command_and_read_output (script : List (String × Nat))
    (command promptStr : String) : Option String :=
  match readLoop script "" 0 with
  | none => none
  | some (cap, _, _) => some (trimOutput command promptStr (clean_terminal_output cap))

/-! ## The routing-table parser: parse_routing_info -/

/-- The route record built from one data row. -/
structure RouteInfo where
  destination : String
  protocol : String
  flag : String
  nexthop : String
  interface : String
deriving DecidableEq

/-- The header test: the stripped line must contain both
"Destination/Mask" and "NextHop" (case-sensitive). -/
def isHeaderLine (l : String) : Bool :=
  containsSub l "Destination/Mask" && containsSub l "NextHop"

/-- The line loop of parse_routing_info.  A header-shaped line always
just sets the flag and moves on; after the header, a non-empty line
with at least 7 whitespace-separated fields yields the record built
from fields 0, 1, 4, 5 and 6, and any other line is skipped. -/
def parseLoop : List String → Bool → Option RouteInfo
  | [], _ => none
  | line :: rest, headerFound =>
    let l := pyStrip line
    if isHeaderLine l then parseLoop rest true
    else if headerFound = true ∧ l ≠ "" then
      (let parts := pySplitWs l
       if h : 7 ≤ parts.length then
         some ⟨parts[0], parts[1], parts[4], parts[5], parts[6]⟩
       else parseLoop rest headerFound)
    else parseLoop rest headerFound

/-- parse_routing_info: split the output into lines and run the loop
with the header not yet found. -/
def parse_routing_info (output : String) : Option RouteInfo :=
  parseLoop (pySplitLines output) false

/-! ## The classification decision table of main -/

/-- re.search for the pattern AH-HF- followed by one or more non-dot
characters: at each position, if the fixed token starts there and at
least one non-dot character follows it, capture the greedy non-dot
run; otherwise move one position right. -/
def searchAHHF : List Char → Option (List Char)
  | [] => none
  | c :: cs =>
    if isPrefixL "AH-HF-".data (c :: cs) then
      let cap := ((c :: cs).drop 6).takeWhile (fun d => d ≠ '.')
      if cap.isEmpty then searchAHHF cs else some cap
    else searchAHHF cs

/-- The inner loop of rule 2 in main: find the first line whose
stripped form starts with "description dT:", extract the AH-HF-
fragment from it (or the fixed unmatched-rule placeholder), and stop;
if no such line exists, report that the description was not found. -/
def descLabelGo (intf : String) : List String → String
  | [] => "未找到接口 " ++ intf ++ " 的\x27description dT:\x27"
  | line :: rest =>
    let l := pyStrip line
    if isPrefixL "description dT:".data l.data then
      match searchAHHF l.data with
      | some cap => String.mk cap
      | none => "SR描述未匹配提取规则"
    else descLabelGo intf rest

/-- The label rule 2 computes from the follow-up command's output. -/
def descLabel (intf : String) (descOutput : String) : String :=
  descLabelGo intf (pySplitLines descOutput)

/-- The ordered decision table of main, applied to the parsed route.
`followUp` is the session round-trip that answers the interface
description query; the second component counts how many follow-up
queries were issued. -/
def classifyRoute (route : Option RouteInfo) (followUp : String → String) : String × Nat :=
  match route with
  | none => ("未找到路由信息", 0)
  | some r =>
    if r.protocol = "IBGP" then (r.nexthop, 0)
    else if r.flag = "D" ∧ r.interface ≠ "" then
      (descLabel r.interface (followUp r.interface), 1)
    else if r.nexthop ≠ "" ∧ pyStartsWith r.nexthop "124" = true then ("新城", 0)
    else if r.nexthop ≠ "" ∧ pyStartsWith r.nexthop "202" = true then ("出省地址", 0)
    else ("未匹配任何已知规则", 0)

/-- One target's processing in main, given the cleaned and trimmed
output of the route lookup: an empty output short-circuits to the
no-output label before the parser or any rule runs. -/
def processIp (output1 : String) (followUp : String → String) : String × Nat :=
  if output1 = "" then ("命令无输出", 0)
  else classifyRoute (parse_routing_info output1) followUp

/-! ## The batch loop of main -/

/-- The error a target's processing can raise past its own code: the
message of the caught exception. -/
abbrev BatchErr : Type := String

/-- The per-target exception boundary: any error becomes the generic
processing-error label. -/
def catchLabel : Except BatchErr String → String
  | Except.ok l => l
  | Except.error _ => "处理时发生错误"

/-- The batch loop: one label per target, in order, failures isolated
by `catchLabel`. -/
def runBatch (proc : String → Except BatchErr String) (ips : List String) : List String :=
  ips.map (fun ip => catchLabel (proc ip))

/-- The batch loop against a session whose connectivity when target
`i` is processed is `conn i`.  The loop body never checks
connectivity; processing a target over a dead session raises at the
session call and the per-target handler turns that into the generic
error label, after which the loop moves on. -/
def runBatchConn (conn : Nat → Bool) (proc : String → Except BatchErr String) :
    List String → Nat → List String
  | [], _ => []
  | ip :: rest, i =>
    (if conn i then catchLabel (proc ip) else "处理时发生错误") :: runBatchConn conn proc rest (i + 1)

/-- The control flow of main around the batch: the connectivity check
runs once, before anything else; a NoPrompt failure ends the run
before any target is processed; otherwise every target is processed.
`none` means the run ended with no label produced. -/
def mainRun (connectedAtStart : Bool) (promptOpt : Option String)
    (ips : List String) (proc : String → Except BatchErr String) : Option (List String) :=
  if connectedAtStart = false then none
  else
    match promptOpt with
    | none => none
    | some _ => some (runBatch proc ips)

/-! ## Input shapes for the sanitizer properties -/

/-- A pagination line-overwrite sequence: whitespace, ESC [ digits D,
whitespace, ESC [ digits D. -/
def pagSeq (ws1 d1 ws2 d2 : List Char) : List Char :=
  ws1 ++ '\x1b' :: '[' :: (d1 ++ 'D' :: (ws2 ++ '\x1b' :: '[' :: (d2 ++ ['D'])))

/-- A standard CSI escape sequence: ESC [ parameter bytes,
intermediate bytes, one final byte. -/
def csiSeq (params inters : List Char) (fin : Char) : List Char :=
  '\x1b' :: '[' :: (params ++ inters ++ [fin])

/-- A standard OSC (title-setting) escape sequence: ESC ] body, closed
by BEL when `bel` is true and by ESC backslash otherwise. -/
def oscSeq (body : List Char) (bel : Bool) : List Char :=
  '\x1b' :: ']' :: (body ++ (if bel then ['\x07'] else ['\x1b', '\\']))

/-- One segment of a terminal transcript: escape-free text, a
pagination line-overwrite sequence, a CSI escape, or an OSC escape. -/
inductive TermSeg where
  | plain : List Char → TermSeg
  | pag : List Char → List Char → List Char → List Char → TermSeg
  | csi : List Char → List Char → Char → TermSeg
  | osc : List Char → Bool → TermSeg

/-- The characters a segment stands for. -/
def renderSeg : TermSeg → List Char
  | TermSeg.plain s => s
  | TermSeg.pag ws1 d1 ws2 d2 => pagSeq ws1 d1 ws2 d2
  | TermSeg.csi params inters fin => csiSeq params inters fin
  | TermSeg.osc body bel => oscSeq body bel

/-- The characters a segment list stands for. -/
def renderSegs : List TermSeg → List Char
  | [] => []
  | s :: rest => renderSeg s ++ renderSegs rest

/-- What step 1 of the sanitizer leaves of one segment: each
pagination pattern becomes exactly one newline, everything else is
untouched. -/
def pass1Seg : TermSeg → List Char
  | TermSeg.pag _ _ _ _ => ['\n']
  | s => renderSeg s

/-- What step 1 of the sanitizer leaves of a segment list. -/
def pass1Segs : List TermSeg → List Char
  | [] => []
  | s :: rest => pass1Seg s ++ pass1Segs rest

/-- What the full sanitizer leaves of one segment: each pagination
pattern becomes exactly one newline, each escape sequence is deleted,
plain text is untouched. -/
def cleanSeg : TermSeg → List Char
  | TermSeg.plain s => s
  | TermSeg.pag _ _ _ _ => ['\n']
  | TermSeg.csi _ _ _ => []
  | TermSeg.osc _ _ => []

/-- What the full sanitizer leaves of a segment list. -/
def cleanSegs : List TermSeg → List Char
  | [] => []
  | s :: rest => cleanSeg s ++ cleanSegs rest

/-- Whether the rendered segment is non-empty and ends in a
non-whitespace character.  Pagination patterns end in D, CSI escapes
in a final byte, OSC escapes in BEL or backslash, so only plain text
needs inspecting. -/
def endsNonWsB : TermSeg → Bool
  | TermSeg.plain s =>
    (match s.getLast? with
     | some c => !isPySpace c
     | none => false)
  | _ => true

/-- Whether a segment is plain text. -/
def isPlainB : TermSeg → Bool
  | TermSeg.plain _ => true
  | _ => false

/-- Whether a segment list starts with a pagination pattern. -/
def headIsPagB : List TermSeg → Bool
  | TermSeg.pag _ _ _ _ :: _ => true
  | _ => false

/-- Whether a segment list starts with plain text. -/
def headIsPlainB : List TermSeg → Bool
  | s :: _ => isPlainB s
  | [] => false

/-- Well-formedness of one segment: plain text is escape-free; a
pagination pattern has whitespace runs (the second non-empty) and
non-empty digit runs; a CSI escape has its bytes in the three regex
classes and is not itself of the cursor-back shape ESC [ digits D
(a cursor-back unit is a constituent of the pagination pattern, not an
"other" escape code); an OSC body contains no ESC, no BEL and no
newline, so the lazy scan reaches its terminator. -/
def WFSegB : TermSeg → Bool
  | TermSeg.plain s => s.all (fun c => c != '\x1b')
  | TermSeg.pag ws1 d1 ws2 d2 =>
    ws1.all isPySpace && ws2.all isPySpace && !ws2.isEmpty &&
    d1.all Char.isDigit && !d1.isEmpty && d2.all Char.isDigit && !d2.isEmpty
  | TermSeg.csi params inters fin =>
    params.all inParamByte && inters.all inInterByte && inFinalByte fin &&
    !(!params.isEmpty && params.all Char.isDigit && inters.isEmpty && (fin == 'D'))
  | TermSeg.osc body _ => body.all (fun c => c != '\x1b' && c != '\x07' && c != '\n')

/-- Well-formedness of a segment list: every segment well-formed, the
segment before a pagination pattern ends in a non-whitespace character
(otherwise the pattern's leading whitespace run would absorb it), and
adjacent plain segments are merged (no loss of generality). -/
def WFSegsB : List TermSeg → Bool
  | [] => true
  | s :: rest =>
    WFSegB s && (!headIsPagB rest || endsNonWsB s) &&
    !(isPlainB s && headIsPlainB rest) && WFSegsB rest

/-! ## Helper lemmas on dropWhile -/

theorem mem_of_mem_dropWhile {p : Char → Bool} {c : Char} {l : List Char}
    (h : c ∈ l.dropWhile p) : c ∈ l :=
  (List.dropWhile_suffix p).subset h

theorem dropWhile_append_all {p : Char → Bool} {xs : List Char} (ys : List Char)
    (h : ∀ c ∈ xs, p c = true) : (xs ++ ys).dropWhile p = ys.dropWhile p := by
  induction xs with
  | nil => rfl
  | cons x xs ih =>
    simp only [List.cons_append, List.dropWhile_cons, h x (List.mem_cons_self x xs), if_true]
    exact ih (fun c hc => h c (List.mem_cons_of_mem x hc))

theorem dropWhile_append_left {p : Char → Bool} {xs : List Char} (ys : List Char)
    (h : xs.dropWhile p ≠ []) : (xs ++ ys).dropWhile p = xs.dropWhile p ++ ys := by
  induction xs with
  | nil => exact absurd rfl h
  | cons x xs ih =>
    by_cases hx : p x
    · simp only [List.cons_append, List.dropWhile_cons, hx, if_true]
      simp only [List.dropWhile_cons, hx, if_true] at h
      exact ih h
    · simp [List.dropWhile_cons, hx]

theorem dropWhile_ne_nil_of_getLast {p : Char → Bool} {xs : List Char}
    (h : xs ≠ []) (hl : p (xs.getLast h) = false) : xs.dropWhile p ≠ [] := by
  induction xs with
  | nil => exact absurd rfl h
  | cons x xs ih =>
    cases xs with
    | nil =>
      simp only [List.getLast_singleton] at hl
      simp [List.dropWhile_cons, hl]
    | cons y ys =>
      by_cases hx : p x = true
      · rw [List.dropWhile_cons, if_pos hx]
        refine ih (by simp) ?_
        rwa [List.getLast_cons (by simp)] at hl
      · rw [List.dropWhile_cons, if_neg hx]
        simp

theorem length_dropWhile_le (p : Char → Bool) (l : List Char) :
    (l.dropWhile p).length ≤ l.length :=
  (List.dropWhile_suffix p).sublist.length_le

/-! ## parseUnit lemmas -/

theorem parseUnit_none_of_shape {l : List Char}
    (h : ∀ c rest, l ≠ '\x1b' :: '[' :: c :: rest) : parseUnit l = none := by
  rw [parseUnit.eq_def]
  split
  · rename_i c rest
    exact absurd rfl (h c rest)
  · rfl

theorem parseUnit_none_of_noEsc {l : List Char}
    (h : ∀ c ∈ l, c ≠ '\x1b') : parseUnit l = none := by
  refine parseUnit_none_of_shape (fun c rest heq => ?_)
  exact h '\x1b' (heq ▸ List.mem_cons_self _ _) rfl

theorem parseUnit_some_structure {l r : List Char} (h : parseUnit l = some r) :
    ∃ c rest, l = '\x1b' :: '[' :: c :: rest ∧ r <:+ (c :: rest) ∧ r.length < l.length := by
  rw [parseUnit.eq_def] at h
  split at h
  · rename_i c rest
    refine ⟨c, rest, rfl, ?_⟩
    split at h
    · split at h
      · rename_i r2 heq
        cases h
        have hsuff : 'D' :: r <:+ c :: rest := heq ▸ List.dropWhile_suffix Char.isDigit
        have : r <:+ c :: rest := (List.suffix_cons 'D' r).trans hsuff
        refine ⟨this, ?_⟩
        have := hsuff.sublist.length_le
        simp only [List.length_cons] at this ⊢
        omega
      · exact absurd h (by simp)
    · exact absurd h (by simp)
  · exact absurd h (by simp)

theorem parseUnit_unit (d1 tail : List Char)
    (hd : ∀ c ∈ d1, c.isDigit = true) (hne : d1 ≠ []) :
    parseUnit ('\x1b' :: '[' :: (d1 ++ 'D' :: tail)) = some tail := by
  cases d1 with
  | nil => exact absurd rfl hne
  | cons e ds =>
    have he : e.isDigit = true := hd e (List.mem_cons_self e ds)
    simp only [List.cons_append, parseUnit, he, if_true]
    have : ((e :: ds) ++ 'D' :: tail).dropWhile Char.isDigit = 'D' :: tail := by
      rw [dropWhile_append_all _ hd]
      simp [List.dropWhile_cons]
    simp only [List.cons_append] at this
    rw [this]
    rfl

/-! ## tryMatch1 lemmas -/

theorem tryMatch1_none_of_noEsc {l : List Char}
    (h : ∀ c ∈ l, c ≠ '\x1b') : tryMatch1 l = none := by
  have hpu : parseUnit (l.dropWhile isPySpace) = none :=
    parseUnit_none_of_noEsc (fun c hc => h c (mem_of_mem_dropWhile hc))
  simp [tryMatch1, hpu]

theorem afterUnit1_cons (c : Char) (cs : List Char) :
    afterUnit1 (c :: cs)
      = if isPySpace c = true then parseUnit ((c :: cs).dropWhile isPySpace) else none := rfl

theorem afterUnit1_some_length {l r : List Char} (h : afterUnit1 l = some r) :
    r.length < l.length := by
  cases l with
  | nil => exact absurd h (by simp [afterUnit1])
  | cons c cs =>
    rw [afterUnit1_cons] at h
    by_cases hws : isPySpace c = true
    · rw [if_pos hws] at h
      obtain ⟨c2, rest2, -, -, hlen2⟩ := parseUnit_some_structure h
      have h3 : ((c :: cs).dropWhile isPySpace).length ≤ (c :: cs).length :=
        length_dropWhile_le _ _
      omega
    · rw [if_neg hws] at h
      exact absurd h (by simp)

theorem afterUnit1_none_of_noEsc {l : List Char}
    (h : ∀ c ∈ l, c ≠ '\x1b') : afterUnit1 l = none := by
  cases l with
  | nil => rfl
  | cons c cs =>
    rw [afterUnit1_cons]
    by_cases hws : isPySpace c = true
    · rw [if_pos hws]
      exact parseUnit_none_of_noEsc (fun d hd => h d (mem_of_mem_dropWhile hd))
    · rw [if_neg hws]

theorem tryMatch1_some_length {l r : List Char} (h : tryMatch1 l = some r) :
    r.length < l.length := by
  unfold tryMatch1 at h
  cases hpu : parseUnit (l.dropWhile isPySpace) with
  | none => rw [hpu] at h; exact absurd h (by simp)
  | some l2 =>
    rw [hpu, Option.some_bind] at h
    obtain ⟨c1, rest1, -, -, hlen1⟩ := parseUnit_some_structure hpu
    have hlen2 := afterUnit1_some_length h
    have h4 : (l.dropWhile isPySpace).length ≤ l.length := length_dropWhile_le _ _
    omega

theorem tryMatch1_pag (ws1 d1 ws2 d2 tail : List Char)
    (hws1 : ∀ c ∈ ws1, isPySpace c = true) (hws2 : ∀ c ∈ ws2, isPySpace c = true)
    (hws2ne : ws2 ≠ [])
    (hd1 : ∀ c ∈ d1, c.isDigit = true) (hd1ne : d1 ≠ [])
    (hd2 : ∀ c ∈ d2, c.isDigit = true) (hd2ne : d2 ≠ []) :
    tryMatch1 (pagSeq ws1 d1 ws2 d2 ++ tail) = some tail := by
  have hshape : pagSeq ws1 d1 ws2 d2 ++ tail
      = ws1 ++ '\x1b' :: '[' :: (d1 ++ 'D' :: (ws2 ++ '\x1b' :: '[' :: (d2 ++ 'D' :: tail))) := by
    simp [pagSeq]
  have hdrop1 : (ws1 ++ '\x1b' :: '[' :: (d1 ++ 'D' :: (ws2 ++ '\x1b' :: '[' :: (d2 ++ 'D' :: tail)))).dropWhile isPySpace
      = '\x1b' :: '[' :: (d1 ++ 'D' :: (ws2 ++ '\x1b' :: '[' :: (d2 ++ 'D' :: tail))) := by
    rw [dropWhile_append_all _ hws1, List.dropWhile_cons, if_neg (by decide)]
  have hpu1 := parseUnit_unit d1 (ws2 ++ '\x1b' :: '[' :: (d2 ++ 'D' :: tail)) hd1 hd1ne
  have hafter : afterUnit1 (ws2 ++ '\x1b' :: '[' :: (d2 ++ 'D' :: tail)) = some tail := by
    cases ws2 with
    | nil => exact absurd rfl hws2ne
    | cons w ws2s =>
      have hw : isPySpace w = true := hws2 w (List.mem_cons_self w ws2s)
      have hdrop2 : ((w :: ws2s) ++ '\x1b' :: '[' :: (d2 ++ 'D' :: tail)).dropWhile isPySpace
          = '\x1b' :: '[' :: (d2 ++ 'D' :: tail) := by
        rw [dropWhile_append_all _ hws2, List.dropWhile_cons, if_neg (by decide)]
      have hpu2 := parseUnit_unit d2 tail hd2 hd2ne
      show afterUnit1 (w :: (ws2s ++ '\x1b' :: '[' :: (d2 ++ 'D' :: tail))) = some tail
      rw [afterUnit1_cons, if_pos hw]
      simp only [List.cons_append] at hdrop2
      rw [hdrop2, hpu2]
  rw [hshape]
  unfold tryMatch1
  rw [hdrop1, hpu1, Option.some_bind, hafter]

theorem tryMatch1_csiFront (params inters b : List Char) (fin : Char)
    (hp : ∀ c ∈ params, inParamByte c = true) (hi : ∀ c ∈ inters, inInterByte c = true)
    (hf : inFinalByte fin = true) (hb : ∀ c ∈ b, c ≠ '\x1b') :
    tryMatch1 ('\x1b' :: '[' :: (params ++ inters ++ fin :: b)) = none := by
  have hnoesc : ∀ c ∈ params ++ inters ++ fin :: b, c ≠ '\x1b' := by
    intro c hc heq
    subst heq
    rcases List.mem_append.1 hc with hc1 | hc1
    · rcases List.mem_append.1 hc1 with hc2 | hc2
      · have := hp _ hc2
        simp [inParamByte] at this
      · have := hi _ hc2
        simp [inInterByte] at this
    · rcases List.mem_cons.1 hc1 with hc2 | hc2
      · rw [← hc2] at hf
        simp [inFinalByte] at hf
      · exact hb _ hc2 rfl
  have hdrop : ('\x1b' :: '[' :: (params ++ inters ++ fin :: b)).dropWhile isPySpace
      = '\x1b' :: '[' :: (params ++ inters ++ fin :: b) := by
    rw [List.dropWhile_cons, if_neg (by decide)]
  unfold tryMatch1
  rw [hdrop]
  cases hpu : parseUnit ('\x1b' :: '[' :: (params ++ inters ++ fin :: b)) with
  | none => rfl
  | some l2 =>
    obtain ⟨c1, rest1, heq, hsuff, -⟩ := parseUnit_some_structure hpu
    have heq2 : c1 :: rest1 = params ++ inters ++ fin :: b := by
      injection heq with h1 h2
      injection h2 with h3 h4
      exact h4.symm
    have hl2 : ∀ c ∈ l2, c ≠ '\x1b' := by
      intro c hc
      exact hnoesc c (heq2 ▸ hsuff.subset hc)
    rw [Option.some_bind]
    exact afterUnit1_none_of_noEsc hl2

/-! ## sub1 scan lemmas -/

theorem sub1Go_succ_cons (f : Nat) (c : Char) (cs : List Char) :
    sub1Go (f + 1) (c :: cs)
      = (match tryMatch1 (c :: cs) with
         | some rest => '\n' :: sub1Go f rest
         | none => c :: sub1Go f cs) := rfl

theorem sub1Go_cons_none (f : Nat) {c : Char} {cs : List Char}
    (h : tryMatch1 (c :: cs) = none) : sub1Go (f + 1) (c :: cs) = c :: sub1Go f cs := by
  rw [sub1Go_succ_cons, h]

theorem sub1Go_cons_some (f : Nat) {c : Char} {cs rest : List Char}
    (h : tryMatch1 (c :: cs) = some rest) : sub1Go (f + 1) (c :: cs) = '\n' :: sub1Go f rest := by
  rw [sub1Go_succ_cons, h]

theorem sub1Go_congr : ∀ f : Nat, ∀ l : List Char, l.length ≤ f → sub1Go f l = sub1 l := by
  intro f
  induction f using Nat.strong_induction_on with
  | _ f ih =>
    intro l hl
    cases f with
    | zero =>
      cases l with
      | nil => rfl
      | cons c cs => simp at hl
    | succ g =>
      cases l with
      | nil => rfl
      | cons c cs =>
        show sub1Go (g + 1) (c :: cs) = sub1Go (cs.length + 1) (c :: cs)
        simp only [List.length_cons] at hl
        cases hm : tryMatch1 (c :: cs) with
        | some rest =>
          have hlen := tryMatch1_some_length hm
          simp only [List.length_cons] at hlen
          rw [sub1Go_cons_some g hm, sub1Go_cons_some cs.length hm]
          rw [ih g (by omega) rest (by omega), ih cs.length (by omega) rest (by omega)]
        | none =>
          rw [sub1Go_cons_none g hm, sub1Go_cons_none cs.length hm]
          rw [ih g (by omega) cs (by omega), ih cs.length (by omega) cs (by omega)]

theorem sub1_nil : sub1 [] = [] := rfl

theorem sub1_cons_none {c : Char} {cs : List Char} (h : tryMatch1 (c :: cs) = none) :
    sub1 (c :: cs) = c :: sub1 cs := by
  show sub1Go (cs.length + 1) (c :: cs) = _
  rw [sub1Go_cons_none cs.length h]
  rfl

theorem sub1_cons_some {c : Char} {cs rest : List Char} (h : tryMatch1 (c :: cs) = some rest) :
    sub1 (c :: cs) = '\n' :: sub1 rest := by
  show sub1Go (cs.length + 1) (c :: cs) = _
  rw [sub1Go_cons_some cs.length h]
  have hlen := tryMatch1_some_length h
  simp only [List.length_cons] at hlen
  rw [sub1Go_congr cs.length rest (by omega)]

theorem sub1_match {l rest : List Char} (hl : l ≠ []) (h : tryMatch1 l = some rest) :
    sub1 l = '\n' :: sub1 rest := by
  cases l with
  | nil => exact absurd rfl hl
  | cons c cs => exact sub1_cons_some h

theorem sub1_eq_self {l : List Char}
    (h : ∀ c cs, (c :: cs) <:+ l → tryMatch1 (c :: cs) = none) : sub1 l = l := by
  induction l with
  | nil => rfl
  | cons c cs ih =>
    rw [sub1_cons_none (h c cs (List.suffix_refl _))]
    rw [ih (fun d ds hs => h d ds (hs.trans (List.suffix_cons c cs)))]

theorem sub1_append_front {a : List Char} (l : List Char)
    (hE : ∀ c ∈ a, c ≠ '\x1b')
    (hlast : ∀ h : a ≠ [], isPySpace (a.getLast h) = false) :
    sub1 (a ++ l) = a ++ sub1 l := by
  induction a with
  | nil => rfl
  | cons c a2 ih =>
    have hm : tryMatch1 (c :: (a2 ++ l)) = none := by
      by_cases hc : isPySpace c = true
      · have ha2ne : a2 ≠ [] := by
          intro heq
          subst heq
          have := hlast (by simp)
          simp only [List.getLast_singleton] at this
          rw [hc] at this
          exact Bool.noConfusion this
        have hlast2 : isPySpace (a2.getLast ha2ne) = false := by
          have := hlast (by simp)
          rwa [List.getLast_cons ha2ne] at this
        have hne : a2.dropWhile isPySpace ≠ [] :=
          dropWhile_ne_nil_of_getLast ha2ne hlast2
        have hdrop : (c :: (a2 ++ l)).dropWhile isPySpace
            = a2.dropWhile isPySpace ++ l := by
          rw [List.dropWhile_cons, if_pos hc, dropWhile_append_left l hne]
        have hpu : parseUnit (a2.dropWhile isPySpace ++ l) = none := by
          cases hd : a2.dropWhile isPySpace with
          | nil => exact absurd hd hne
          | cons d ds =>
            have hdmem : d ∈ a2 := mem_of_mem_dropWhile (hd ▸ List.mem_cons_self d ds)
            refine parseUnit_none_of_shape (fun x rest heq => ?_)
            have : d = '\x1b' := by
              have := congrArg (fun t => t.head?) heq
              simpa using this
            exact hE d (List.mem_cons_of_mem c hdmem) this
        unfold tryMatch1
        rw [hdrop, hpu, Option.none_bind]
      · have hdrop : (c :: (a2 ++ l)).dropWhile isPySpace = c :: (a2 ++ l) := by
          rw [List.dropWhile_cons, if_neg hc]
        have hpu : parseUnit (c :: (a2 ++ l)) = none := by
          refine parseUnit_none_of_shape (fun x rest heq => ?_)
          have : c = '\x1b' := by injection heq
          exact hE c (List.mem_cons_self _ _) this
        unfold tryMatch1
        rw [hdrop, hpu, Option.none_bind]
    rw [List.cons_append, sub1_cons_none hm]
    rw [ih (fun d hd => hE d (List.mem_cons_of_mem c hd))
        (fun h2 => by
          have := hlast (by simp)
          rwa [List.getLast_cons h2] at this)]
    rw [List.cons_append]

/-! ## tryMatch2 lemmas -/

theorem tryMatch2_esc (rest : List Char) : tryMatch2 ('\x1b' :: rest) = escBody rest := rfl

theorem escBody_csiBr (rest : List Char) :
    escBody ('[' :: rest) = csiTail ((rest.dropWhile inParamByte).dropWhile inInterByte) := rfl

theorem escBody_oscBr (rest : List Char) : escBody (']' :: rest) = oscScan rest := rfl

theorem csiTail_cons (c : Char) (r3 : List Char) :
    csiTail (c :: r3) = if inFinalByte c = true then some r3 else none := rfl

theorem tryMatch2_none_of_head {c : Char} {cs : List Char} (h : c ≠ '\x1b') :
    tryMatch2 (c :: cs) = none := by
  rw [tryMatch2.eq_def]
  split
  · rename_i rest heq
    injection heq with h1 h2
    exact absurd h1 h
  · rfl

theorem escBody_none_of_head {d : Char} {ds : List Char} (h1 : d ≠ '[') (h2 : d ≠ ']') :
    escBody (d :: ds) = none := by
  rw [escBody.eq_def]
  split
  · rename_i rest heq
    injection heq with ha hb
    exact absurd ha h1
  · rename_i rest heq
    injection heq with ha hb
    exact absurd ha h2
  · rfl

theorem csiTail_some_length {l r : List Char} (h : csiTail l = some r) :
    r.length < l.length := by
  cases l with
  | nil => exact Option.noConfusion h
  | cons c cs =>
    rw [csiTail_cons] at h
    by_cases hf : inFinalByte c = true
    · rw [if_pos hf] at h
      cases h
      simp
    · rw [if_neg hf] at h
      exact Option.noConfusion h

theorem oscScan_some_length_fuel :
    ∀ (n : Nat) (l r : List Char), l.length ≤ n → oscScan l = some r → r.length < l.length := by
  intro n
  induction n with
  | zero =>
    intro l r hl h
    cases l with
    | nil => exact Option.noConfusion h
    | cons c cs => simp at hl
  | succ n ih =>
    intro l r hl h
    rw [oscScan.eq_def] at h
    split at h
    · exact Option.noConfusion h
    · cases h
      simp
    · cases h
      simp only [List.length_cons]
      omega
    · rename_i c rest hne1 hne2
      split at h
      · exact Option.noConfusion h
      · have hlen : rest.length ≤ n := by
          simp only [List.length_cons] at hl
          omega
        have := ih rest r hlen h
        simp only [List.length_cons]
        omega

theorem oscScan_some_length {l r : List Char} (h : oscScan l = some r) :
    r.length < l.length :=
  oscScan_some_length_fuel l.length l r (le_refl _) h

theorem tryMatch2_some_length {l r : List Char} (h : tryMatch2 l = some r) :
    r.length < l.length := by
  cases l with
  | nil => exact Option.noConfusion h
  | cons c cs =>
    by_cases hc : c = '\x1b'
    · subst hc
      rw [tryMatch2_esc] at h
      cases cs with
      | nil => exact Option.noConfusion h
      | cons d ds =>
        by_cases hd1 : d = '['
        · subst hd1
          rw [escBody_csiBr] at h
          have hlen := csiTail_some_length h
          have h1 : ((ds.dropWhile inParamByte).dropWhile inInterByte).length
              ≤ (ds.dropWhile inParamByte).length := length_dropWhile_le _ _
          have h2 : (ds.dropWhile inParamByte).length ≤ ds.length := length_dropWhile_le _ _
          simp only [List.length_cons]
          omega
        · by_cases hd2 : d = ']'
          · subst hd2
            rw [escBody_oscBr] at h
            have := oscScan_some_length h
            simp only [List.length_cons]
            omega
          · rw [escBody_none_of_head hd1 hd2] at h
            exact Option.noConfusion h
    · rw [tryMatch2_none_of_head hc] at h
      exact Option.noConfusion h

theorem dropWhile_eq_self_of_head {p : Char → Bool} :
    ∀ {l : List Char}, (∀ (c : Char) (cs : List Char), l = c :: cs → p c = false) →
      l.dropWhile p = l := by
  intro l h
  cases l with
  | nil => rfl
  | cons c cs => rw [List.dropWhile_cons, if_neg (by rw [h c cs rfl]; simp)]

theorem inParamByte_false_of_inInter {c : Char} (h : inInterByte c = true) :
    inParamByte c = false := by
  simp only [inInterByte, Bool.and_eq_true, decide_eq_true_eq] at h
  simp only [inParamByte, Bool.and_eq_false_iff, decide_eq_false_iff_not]
  omega

theorem inParamByte_false_of_inFinal {c : Char} (h : inFinalByte c = true) :
    inParamByte c = false := by
  simp only [inFinalByte, Bool.and_eq_true, decide_eq_true_eq] at h
  simp only [inParamByte, Bool.and_eq_false_iff, decide_eq_false_iff_not]
  omega

theorem inInterByte_false_of_inFinal {c : Char} (h : inFinalByte c = true) :
    inInterByte c = false := by
  simp only [inFinalByte, Bool.and_eq_true, decide_eq_true_eq] at h
  simp only [inInterByte, Bool.and_eq_false_iff, decide_eq_false_iff_not]
  omega

theorem tryMatch2_csi (params inters b : List Char) (fin : Char)
    (hp : ∀ c ∈ params, inParamByte c = true) (hi : ∀ c ∈ inters, inInterByte c = true)
    (hf : inFinalByte fin = true) :
    tryMatch2 (csiSeq params inters fin ++ b) = some b := by
  have hshape : csiSeq params inters fin ++ b
      = '\x1b' :: '[' :: (params ++ (inters ++ fin :: b)) := by
    simp [csiSeq]
  rw [hshape, tryMatch2_esc, escBody_csiBr]
  have hd1 : (params ++ (inters ++ fin :: b)).dropWhile inParamByte = inters ++ fin :: b := by
    rw [dropWhile_append_all _ hp]
    refine dropWhile_eq_self_of_head (fun c cs heq => ?_)
    cases inters with
    | nil =>
      simp only [List.nil_append] at heq
      injection heq with ha hb
      rw [← ha]
      exact inParamByte_false_of_inFinal hf
    | cons i is =>
      simp only [List.cons_append] at heq
      injection heq with ha hb
      rw [← ha]
      exact inParamByte_false_of_inInter (hi i (List.mem_cons_self i is))
  have hd2 : (inters ++ fin :: b).dropWhile inInterByte = fin :: b := by
    rw [dropWhile_append_all _ hi, List.dropWhile_cons,
        if_neg (by rw [inInterByte_false_of_inFinal hf]; simp)]
  rw [hd1, hd2, csiTail_cons, if_pos hf]

/-! ## sub2 scan lemmas -/

theorem sub2Go_succ_cons (f : Nat) (c : Char) (cs : List Char) :
    sub2Go (f + 1) (c :: cs)
      = (match tryMatch2 (c :: cs) with
         | some rest => sub2Go f rest
         | none => c :: sub2Go f cs) := rfl

theorem sub2Go_cons_none (f : Nat) {c : Char} {cs : List Char}
    (h : tryMatch2 (c :: cs) = none) : sub2Go (f + 1) (c :: cs) = c :: sub2Go f cs := by
  rw [sub2Go_succ_cons, h]

theorem sub2Go_cons_some (f : Nat) {c : Char} {cs rest : List Char}
    (h : tryMatch2 (c :: cs) = some rest) : sub2Go (f + 1) (c :: cs) = sub2Go f rest := by
  rw [sub2Go_succ_cons, h]

theorem sub2Go_congr : ∀ f : Nat, ∀ l : List Char, l.length ≤ f → sub2Go f l = sub2 l := by
  intro f
  induction f using Nat.strong_induction_on with
  | _ f ih =>
    intro l hl
    cases f with
    | zero =>
      cases l with
      | nil => rfl
      | cons c cs => simp at hl
    | succ g =>
      cases l with
      | nil => rfl
      | cons c cs =>
        show sub2Go (g + 1) (c :: cs) = sub2Go (cs.length + 1) (c :: cs)
        simp only [List.length_cons] at hl
        cases hm : tryMatch2 (c :: cs) with
        | some rest =>
          have hlen := tryMatch2_some_length hm
          simp only [List.length_cons] at hlen
          rw [sub2Go_cons_some g hm, sub2Go_cons_some cs.length hm]
          rw [ih g (by omega) rest (by omega), ih cs.length (by omega) rest (by omega)]
        | none =>
          rw [sub2Go_cons_none g hm, sub2Go_cons_none cs.length hm]
          rw [ih g (by omega) cs (by omega), ih cs.length (by omega) cs (by omega)]

theorem sub2_cons_none {c : Char} {cs : List Char} (h : tryMatch2 (c :: cs) = none) :
    sub2 (c :: cs) = c :: sub2 cs := by
  show sub2Go (cs.length + 1) (c :: cs) = _
  rw [sub2Go_cons_none cs.length h]
  rfl

theorem sub2_cons_some {c : Char} {cs rest : List Char} (h : tryMatch2 (c :: cs) = some rest) :
    sub2 (c :: cs) = sub2 rest := by
  show sub2Go (cs.length + 1) (c :: cs) = _
  rw [sub2Go_cons_some cs.length h]
  have hlen := tryMatch2_some_length h
  simp only [List.length_cons] at hlen
  rw [sub2Go_congr cs.length rest (by omega)]

theorem sub2_match {l rest : List Char} (hl : l ≠ []) (h : tryMatch2 l = some rest) :
    sub2 l = sub2 rest := by
  cases l with
  | nil => exact absurd rfl hl
  | cons c cs => exact sub2_cons_some h

theorem sub2_eq_self_of_noEsc {l : List Char} (h : ∀ c ∈ l, c ≠ '\x1b') : sub2 l = l := by
  induction l with
  | nil => rfl
  | cons c cs ih =>
    rw [sub2_cons_none (tryMatch2_none_of_head (h c (List.mem_cons_self c cs)))]
    rw [ih (fun d hd => h d (List.mem_cons_of_mem c hd))]

theorem sub2_append_front {a : List Char} (l : List Char) (hE : ∀ c ∈ a, c ≠ '\x1b') :
    sub2 (a ++ l) = a ++ sub2 l := by
  induction a with
  | nil => rfl
  | cons c a2 ih =>
    rw [List.cons_append,
        sub2_cons_none (tryMatch2_none_of_head (hE c (List.mem_cons_self c a2)))]
    rw [ih (fun d hd => hE d (List.mem_cons_of_mem c hd)), List.cons_append]

/-! ## Character-class facts bridging Char order and code points -/

theorem uint32_le_iff (a b : UInt32) : a ≤ b ↔ a.toNat ≤ b.toNat := by
  rw [UInt32.le_def, BitVec.le_def]
  exact Iff.rfl

theorem char_le_iff (a b : Char) : a ≤ b ↔ a.toNat ≤ b.toNat := by
  rw [Char.le_def]
  exact uint32_le_iff a.val b.val

theorem char_isDigit_iff (c : Char) : c.isDigit = true ↔ 48 ≤ c.toNat ∧ c.toNat ≤ 57 := by
  simp only [Char.isDigit, Bool.and_eq_true, decide_eq_true_eq, ge_iff_le]
  rw [uint32_le_iff, uint32_le_iff]
  exact Iff.rfl

/-- A CSI final byte (0x40-0x7E) is never Python whitespace. -/
theorem isPySpace_eq_false_of_inFinal {c : Char} (h : inFinalByte c = true) :
    isPySpace c = false := by
  simp only [inFinalByte, Bool.and_eq_true, decide_eq_true_eq] at h
  obtain ⟨h1, h2⟩ := h
  simp only [isPySpace, Bool.or_eq_false_iff, Bool.and_eq_false_iff,
    beq_eq_false_iff_ne, ne_eq, decide_eq_false_iff_not]
  repeat' constructor
  all_goals first
  | (intro heq
     subst heq
     revert h1 h2
     decide)
  | (intro hle
     rw [char_le_iff] at hle
     have hx : (' ' : Char).toNat = 0x2000 := by decide
     omega)

theorem isDigit_false_of_inInter {c : Char} (h : inInterByte c = true) :
    c.isDigit = false := by
  simp only [inInterByte, Bool.and_eq_true, decide_eq_true_eq] at h
  rw [Bool.eq_false_iff]
  intro hd
  rw [char_isDigit_iff] at hd
  omega

theorem isDigit_false_of_inFinal {c : Char} (h : inFinalByte c = true) :
    c.isDigit = false := by
  simp only [inFinalByte, Bool.and_eq_true, decide_eq_true_eq] at h
  rw [Bool.eq_false_iff]
  intro hd
  rw [char_isDigit_iff] at hd
  omega

theorem head_dropWhile_false {p : Char → Bool} :
    ∀ {l r : List Char} {c : Char}, l.dropWhile p = c :: r → p c = false := by
  intro l
  induction l with
  | nil => intro r c h; exact List.noConfusion h
  | cons a as ih =>
    intro r c h
    rw [List.dropWhile_cons] at h
    by_cases ha : p a = true
    · rw [if_pos ha] at h
      exact ih h
    · rw [if_neg ha] at h
      injection h with h1 h2
      rw [← h1]
      exact Bool.eq_false_iff.mpr ha

/-! ## parseUnit never fires inside a well-formed escape sequence -/

/-- ESC followed by anything other than an opening bracket starts no
cursor-back unit. -/
theorem parseUnit_notBracket {c : Char} (rest : List Char) (h : c ≠ '[') :
    parseUnit ('\x1b' :: c :: rest) = none := by
  refine parseUnit_none_of_shape (fun x r heq => ?_)
  injection heq with h1 h2
  injection h2 with h3 h4
  exact absurd h3 h

/-- A well-formed CSI escape that is not itself of the cursor-back
shape ESC [ digits D starts no cursor-back unit, whatever follows. -/
theorem parseUnit_csi_none (params inters tail : List Char) (fin : Char)
    (hp : ∀ c ∈ params, inParamByte c = true) (hi : ∀ c ∈ inters, inInterByte c = true)
    (hf : inFinalByte fin = true)
    (hex : ¬(params ≠ [] ∧ (∀ c ∈ params, c.isDigit = true) ∧ inters = [] ∧ fin = 'D')) :
    parseUnit ('\x1b' :: '[' :: (params ++ (inters ++ fin :: tail))) = none := by
  cases params with
  | nil =>
    cases inters with
    | nil =>
      have hfd := isDigit_false_of_inFinal hf
      show parseUnit ('\x1b' :: '[' :: fin :: tail) = none
      simp [parseUnit, hfd]
    | cons i0 is =>
      have hi0 := isDigit_false_of_inInter (hi i0 (List.mem_cons_self i0 is))
      show parseUnit ('\x1b' :: '[' :: i0 :: (is ++ fin :: tail)) = none
      simp [parseUnit, hi0]
  | cons p0 ps =>
    show parseUnit ('\x1b' :: '[' :: p0 :: (ps ++ (inters ++ fin :: tail))) = none
    by_cases hd0 : p0.isDigit = true
    · by_cases hall : ∀ c ∈ p0 :: ps, c.isDigit = true
      · cases inters with
        | nil =>
          have hfD : fin ≠ 'D' := fun heq => hex ⟨by simp, hall, rfl, heq⟩
          have hfnd := isDigit_false_of_inFinal hf
          have hdw : (p0 :: (ps ++ ([] ++ fin :: tail))).dropWhile Char.isDigit
              = fin :: tail := by
            simp only [List.nil_append]
            rw [show p0 :: (ps ++ fin :: tail) = (p0 :: ps) ++ fin :: tail from by simp]
            rw [dropWhile_append_all _ hall, List.dropWhile_cons, if_neg (by rw [hfnd]; simp)]
          simp only [parseUnit, hd0, if_true]
          rw [hdw]
          split
          · rename_i r heq
            injection heq with hh1 hh2
            exact absurd hh1 hfD
          · rfl
        | cons i0 is =>
          have hi0d := isDigit_false_of_inInter (hi i0 (List.mem_cons_self i0 is))
          have hi0D : i0 ≠ 'D' := by
            intro heq
            have hmem := hi i0 (List.mem_cons_self i0 is)
            rw [heq] at hmem
            revert hmem
            decide
          have hdw : (p0 :: (ps ++ ((i0 :: is) ++ fin :: tail))).dropWhile Char.isDigit
              = i0 :: (is ++ fin :: tail) := by
            rw [show p0 :: (ps ++ ((i0 :: is) ++ fin :: tail))
                = (p0 :: ps) ++ (i0 :: (is ++ fin :: tail)) from by simp]
            rw [dropWhile_append_all _ hall, List.dropWhile_cons, if_neg (by rw [hi0d]; simp)]
          simp only [parseUnit, hd0, if_true]
          rw [hdw]
          split
          · rename_i r heq
            injection heq with hh1 hh2
            exact absurd hh1 hi0D
          · rfl
      · have hne : (p0 :: ps).dropWhile Char.isDigit ≠ [] := by
          intro h0
          rw [List.dropWhile_eq_nil_iff] at h0
          exact hall (fun c hc => h0 c hc)
        cases hq : (p0 :: ps).dropWhile Char.isDigit with
        | nil => exact absurd hq hne
        | cons q qs =>
          have hqd : q.isDigit = false := head_dropWhile_false hq
          have hqmem : q ∈ p0 :: ps := mem_of_mem_dropWhile (hq ▸ List.mem_cons_self q qs)
          have hqp : inParamByte q = true := hp q hqmem
          have hqD : q ≠ 'D' := by
            intro heq
            rw [heq] at hqp
            revert hqp
            decide
          have hdw : (p0 :: (ps ++ (inters ++ fin :: tail))).dropWhile Char.isDigit
              = q :: (qs ++ (inters ++ fin :: tail)) := by
            rw [show p0 :: (ps ++ (inters ++ fin :: tail))
                = (p0 :: ps) ++ (inters ++ fin :: tail) from by simp]
            rw [dropWhile_append_left _ hne, hq, List.cons_append]
          simp only [parseUnit, hd0, if_true]
          rw [hdw]
          split
          · rename_i r heq
            injection heq with hh1 hh2
            exact absurd hh1 hqD
          · rfl
    · simp only [parseUnit]
      rw [if_neg hd0]

/-- tryMatch1 at an ESC that starts no cursor-back unit fails. -/
theorem tryMatch1_none_of_escHead {rest : List Char}
    (hpu : parseUnit ('\x1b' :: rest) = none) : tryMatch1 ('\x1b' :: rest) = none := by
  unfold tryMatch1
  rw [List.dropWhile_cons, if_neg (by decide), hpu, Option.none_bind]

/-! ## A generalized front-append lemma for the first scan -/

/-- Scanning escape-free text emits it unchanged provided either the
text ends in a non-whitespace character, or what follows it does not
begin (after whitespace) with a cursor-back unit. -/
theorem sub1_append_front2 {a : List Char} (l : List Char)
    (hE : ∀ c ∈ a, c ≠ '\x1b')
    (hor : (∀ h : a ≠ [], isPySpace (a.getLast h) = false)
        ∨ parseUnit (l.dropWhile isPySpace) = none) :
    sub1 (a ++ l) = a ++ sub1 l := by
  induction a with
  | nil => rfl
  | cons c a2 ih =>
    have hm : tryMatch1 (c :: (a2 ++ l)) = none := by
      by_cases hc : isPySpace c = true
      · cases hd2 : a2.dropWhile isPySpace with
        | nil =>
          have ha2ws : ∀ x ∈ a2, isPySpace x = true := by
            rw [← List.dropWhile_eq_nil_iff]
            exact hd2
          rcases hor with hleft | hright
          · exfalso
            have hlast := hleft (by simp)
            have hmem : (c :: a2).getLast (by simp) ∈ c :: a2 := List.getLast_mem _
            have hws : isPySpace ((c :: a2).getLast (by simp)) = true := by
              rcases List.mem_cons.1 hmem with hm2 | hm2
              · rw [hm2]
                exact hc
              · exact ha2ws _ hm2
            rw [hlast] at hws
            exact Bool.noConfusion hws
          · have hdrop : (c :: (a2 ++ l)).dropWhile isPySpace = l.dropWhile isPySpace := by
              rw [List.dropWhile_cons, if_pos hc, dropWhile_append_all _ ha2ws]
            unfold tryMatch1
            rw [hdrop, hright, Option.none_bind]
        | cons d ds =>
          have hdrop : (c :: (a2 ++ l)).dropWhile isPySpace = (d :: ds) ++ l := by
            rw [List.dropWhile_cons, if_pos hc,
                dropWhile_append_left l (by rw [hd2]; simp), hd2]
          have hdmem : d ∈ a2 := mem_of_mem_dropWhile (hd2 ▸ List.mem_cons_self d ds)
          have hpu : parseUnit ((d :: ds) ++ l) = none := by
            refine parseUnit_none_of_shape (fun x r heq => ?_)
            have hd : d = '\x1b' := by
              have := congrArg List.head? heq
              simpa using this
            exact hE d (List.mem_cons_of_mem c hdmem) hd
          unfold tryMatch1
          rw [hdrop, hpu, Option.none_bind]
      · have hdrop : (c :: (a2 ++ l)).dropWhile isPySpace = c :: (a2 ++ l) := by
          rw [List.dropWhile_cons, if_neg hc]
        have hpu : parseUnit (c :: (a2 ++ l)) = none := by
          refine parseUnit_none_of_shape (fun x r heq => ?_)
          have hceq : c = '\x1b' := by injection heq
          exact hE c (List.mem_cons_self _ _) hceq
        unfold tryMatch1
        rw [hdrop, hpu, Option.none_bind]
    have hor2 : (∀ h : a2 ≠ [], isPySpace (a2.getLast h) = false)
        ∨ parseUnit (l.dropWhile isPySpace) = none := by
      rcases hor with hleft | hright
      · left
        intro h2
        have := hleft (by simp)
        rwa [List.getLast_cons h2] at this
      · right
        exact hright
    rw [List.cons_append, sub1_cons_none hm,
        ih (fun d hd => hE d (List.mem_cons_of_mem c hd)) hor2, List.cons_append]

/-! ## The second scan deletes a whole OSC escape -/

/-- The lazy OSC scan passes over body characters that are not
terminators and not newlines. -/
theorem oscScan_append_body :
    ∀ (body tail : List Char), (∀ c ∈ body, c ≠ '\x1b' ∧ c ≠ '\x07' ∧ c ≠ '\n') →
      oscScan (body ++ tail) = oscScan tail := by
  intro body
  induction body with
  | nil => intro t h; rfl
  | cons c bs ih =>
    intro t h
    obtain ⟨hesc, hbel, hnl⟩ := h c (List.mem_cons_self c bs)
    rw [List.cons_append, oscScan.eq_def]
    split
    · rename_i heq
      exact absurd heq (by simp)
    · rename_i r heq
      injection heq with hh1 hh2
      exact absurd hh1 hbel
    · rename_i r heq
      injection heq with hh1 hh2
      exact absurd hh1 hesc
    · rename_i c2 r hne1 hne2 heq
      injection heq with hh1 hh2
      rw [← hh1, ← hh2, if_neg hnl]
      exact ih t (fun d hd => h d (List.mem_cons_of_mem c hd))

/-- tryMatch2 consumes a well-formed OSC escape exactly. -/
theorem tryMatch2_osc (body : List Char) (bel : Bool) (tail : List Char)
    (hb : ∀ c ∈ body, c ≠ '\x1b' ∧ c ≠ '\x07' ∧ c ≠ '\n') :
    tryMatch2 (oscSeq body bel ++ tail) = some tail := by
  have hshape : oscSeq body bel ++ tail
      = '\x1b' :: ']' :: (body ++ ((if bel then ['\x07'] else ['\x1b', '\\']) ++ tail)) := by
    simp [oscSeq]
  rw [hshape, tryMatch2_esc, escBody_oscBr, oscScan_append_body body _ hb]
  cases bel with
  | true => rfl
  | false => rfl

/-! ## Unpacking well-formedness of segments -/

theorem WFSegsB_cons {s : TermSeg} {rest : List TermSeg} (h : WFSegsB (s :: rest) = true) :
    WFSegB s = true ∧ (!headIsPagB rest || endsNonWsB s) = true
    ∧ (!(isPlainB s && headIsPlainB rest)) = true ∧ WFSegsB rest = true := by
  simp only [WFSegsB, Bool.and_eq_true] at h
  exact ⟨h.1.1.1, h.1.1.2, h.1.2, h.2⟩

theorem WFSegB_plain {s : List Char} (h : WFSegB (TermSeg.plain s) = true) :
    ∀ c ∈ s, c ≠ '\x1b' := by
  simp only [WFSegB, List.all_eq_true, bne_iff_ne, ne_eq] at h
  exact h

theorem WFSegB_pag {ws1 d1 ws2 d2 : List Char}
    (h : WFSegB (TermSeg.pag ws1 d1 ws2 d2) = true) :
    (∀ c ∈ ws1, isPySpace c = true) ∧ (∀ c ∈ ws2, isPySpace c = true) ∧ ws2 ≠ []
    ∧ (∀ c ∈ d1, c.isDigit = true) ∧ d1 ≠ [] ∧ (∀ c ∈ d2, c.isDigit = true) ∧ d2 ≠ [] := by
  simp only [WFSegB, Bool.and_eq_true, List.all_eq_true, Bool.not_eq_true',
    List.isEmpty_eq_false, ne_eq] at h
  exact ⟨h.1.1.1.1.1.1, h.1.1.1.1.1.2, h.1.1.1.1.2, h.1.1.1.2, h.1.1.2, h.1.2, h.2⟩

theorem WFSegB_csi {params inters : List Char} {fin : Char}
    (h : WFSegB (TermSeg.csi params inters fin) = true) :
    (∀ c ∈ params, inParamByte c = true) ∧ (∀ c ∈ inters, inInterByte c = true)
    ∧ inFinalByte fin = true
    ∧ ¬(params ≠ [] ∧ (∀ c ∈ params, c.isDigit = true) ∧ inters = [] ∧ fin = 'D') := by
  simp only [WFSegB, Bool.and_eq_true, List.all_eq_true] at h
  obtain ⟨⟨⟨hp, hi⟩, hf⟩, hex⟩ := h
  refine ⟨hp, hi, hf, ?_⟩
  rintro ⟨h1, h2, h3, h4⟩
  rw [Bool.not_eq_true'] at hex
  have hcontra : (!params.isEmpty && params.all Char.isDigit
      && inters.isEmpty && (fin == 'D')) = true := by
    subst h3 h4
    cases params with
    | nil => exact absurd rfl h1
    | cons a as =>
      simp only [List.isEmpty_cons, Bool.not_false, List.all_eq_true, List.isEmpty_nil,
        beq_self_eq_true, Bool.and_true, Bool.true_and]
      exact fun c hc => h2 c hc
  rw [hcontra] at hex
  exact Bool.noConfusion hex

theorem WFSegB_osc {body : List Char} {bel : Bool}
    (h : WFSegB (TermSeg.osc body bel) = true) :
    ∀ c ∈ body, c ≠ '\x1b' ∧ c ≠ '\x07' ∧ c ≠ '\n' := by
  simp only [WFSegB, List.all_eq_true, Bool.and_eq_true, bne_iff_ne, ne_eq] at h
  exact fun c hc => ⟨(h c hc).1.1, (h c hc).1.2, (h c hc).2⟩

theorem endsNonWsB_plain {s : List Char} (h : endsNonWsB (TermSeg.plain s) = true) :
    ∀ hne : s ≠ [], isPySpace (s.getLast hne) = false := by
  intro hne
  have hgl : s.getLast? = some (s.getLast hne) := List.getLast?_eq_getLast s hne
  have h2 : (match s.getLast? with
             | some c => !isPySpace c
             | none => false) = true := h
  rw [hgl] at h2
  have h3 : (!isPySpace (s.getLast hne)) = true := h2
  rwa [Bool.not_eq_true'] at h3

/-! ## Step 1 over a whole well-formed transcript -/

theorem sub1_renderSegs : ∀ segs : List TermSeg, WFSegsB segs = true →
    sub1 (renderSegs segs) = pass1Segs segs := by
  intro segs
  induction segs with
  | nil => intro h; rfl
  | cons s rest ih =>
    intro hwf
    obtain ⟨hs, hbd, hpl, hrest⟩ := WFSegsB_cons hwf
    have ihr := ih hrest
    cases s with
    | plain str =>
      have hE := WFSegB_plain hs
      show sub1 (str ++ renderSegs rest) = str ++ pass1Segs rest
      rw [sub1_append_front2 _ hE ?hor, ihr]
      case hor =>
        cases rest with
        | nil =>
          right
          rfl
        | cons s2 rest2 =>
          cases s2 with
          | plain s3 => exact absurd hpl (by exact fun hpl2 => Bool.noConfusion hpl2)
          | pag ws1 d1 ws2 d2 =>
            left
            exact endsNonWsB_plain hbd
          | csi p2 i2 f2 =>
            right
            obtain ⟨hp2, hi2, hf2, hex2⟩ := WFSegB_csi (WFSegsB_cons hrest).1
            have hsh : renderSegs (TermSeg.csi p2 i2 f2 :: rest2)
                = '\x1b' :: '[' :: (p2 ++ (i2 ++ f2 :: renderSegs rest2)) := by
              show csiSeq p2 i2 f2 ++ renderSegs rest2 = _
              simp [csiSeq]
            rw [hsh, List.dropWhile_cons, if_neg (by decide)]
            exact parseUnit_csi_none p2 i2 (renderSegs rest2) f2 hp2 hi2 hf2 hex2
          | osc body bel =>
            right
            have hsh : renderSegs (TermSeg.osc body bel :: rest2)
                = '\x1b' :: ']' :: (body
                    ++ ((if bel then ['\x07'] else ['\x1b', '\\']) ++ renderSegs rest2)) := by
              show oscSeq body bel ++ renderSegs rest2 = _
              simp [oscSeq]
            rw [hsh, List.dropWhile_cons, if_neg (by decide)]
            exact parseUnit_notBracket _ (by decide)
    | pag ws1 d1 ws2 d2 =>
      obtain ⟨hws1, hws2, hws2ne, hd1, hd1ne, hd2, hd2ne⟩ := WFSegB_pag hs
      show sub1 (pagSeq ws1 d1 ws2 d2 ++ renderSegs rest) = '\n' :: pass1Segs rest
      rw [sub1_match (by simp [pagSeq])
          (tryMatch1_pag ws1 d1 ws2 d2 _ hws1 hws2 hws2ne hd1 hd1ne hd2 hd2ne), ihr]
    | csi p i f =>
      obtain ⟨hp, hi, hf, hex⟩ := WFSegB_csi hs
      have hE2 : ∀ c ∈ '[' :: (p ++ i ++ [f]), c ≠ '\x1b' := by
        intro c hc heq
        subst heq
        rcases List.mem_cons.1 hc with hc1 | hc1
        · exact absurd hc1.symm (by decide)
        rcases List.mem_append.1 hc1 with hc2 | hc2
        · rcases List.mem_append.1 hc2 with hc3 | hc3
          · have := hp _ hc3
            simp [inParamByte] at this
          · have := hi _ hc3
            simp [inInterByte] at this
        · rcases List.mem_cons.1 hc2 with hc3 | hc3
          · rw [← hc3] at hf
            simp [inFinalByte] at hf
          · simp at hc3
      have htm : tryMatch1 ('\x1b' :: (('[' :: (p ++ i ++ [f])) ++ renderSegs rest)) = none := by
        apply tryMatch1_none_of_escHead
        rw [show ('[' :: (p ++ i ++ [f])) ++ renderSegs rest
            = '[' :: (p ++ (i ++ f :: renderSegs rest)) from by simp]
        exact parseUnit_csi_none p i (renderSegs rest) f hp hi hf hex
      have hsh : renderSegs (TermSeg.csi p i f :: rest)
          = '\x1b' :: (('[' :: (p ++ i ++ [f])) ++ renderSegs rest) := by
        show csiSeq p i f ++ renderSegs rest = _
        simp [csiSeq]
      show sub1 (renderSegs (TermSeg.csi p i f :: rest)) = csiSeq p i f ++ pass1Segs rest
      rw [hsh, sub1_cons_none htm, sub1_append_front2 _ hE2 (Or.inl ?hlast), ihr]
      case hlast =>
        intro hne
        have h1 : ('[' :: (p ++ i ++ [f])).getLast? = some f := by
          rw [show '[' :: (p ++ i ++ [f]) = ('[' :: (p ++ i)) ++ [f] from by simp]
          exact List.getLast?_concat _
        rw [List.getLast?_eq_getLast _ hne] at h1
        injection h1 with h2
        rw [h2]
        exact isPySpace_eq_false_of_inFinal hf
      simp [csiSeq]
    | osc body bel =>
      have hb := WFSegB_osc hs
      cases bel with
      | true =>
        have hE2 : ∀ c ∈ ']' :: (body ++ ['\x07']), c ≠ '\x1b' := by
          intro c hc heq
          subst heq
          rcases List.mem_cons.1 hc with h1 | h1
          · exact absurd h1.symm (by decide)
          rcases List.mem_append.1 h1 with h2 | h2
          · exact (hb _ h2).1 rfl
          · revert h2
            decide
        have htm : tryMatch1 ('\x1b' :: ((']' :: (body ++ ['\x07'])) ++ renderSegs rest))
            = none := by
          apply tryMatch1_none_of_escHead
          rw [show (']' :: (body ++ ['\x07'])) ++ renderSegs rest
              = ']' :: ((body ++ ['\x07']) ++ renderSegs rest) from by simp]
          exact parseUnit_notBracket _ (by decide)
        have hsh : renderSegs (TermSeg.osc body true :: rest)
            = '\x1b' :: ((']' :: (body ++ ['\x07'])) ++ renderSegs rest) := by
          show oscSeq body true ++ renderSegs rest = _
          simp [oscSeq]
        show sub1 (renderSegs (TermSeg.osc body true :: rest))
            = oscSeq body true ++ pass1Segs rest
        rw [hsh, sub1_cons_none htm, sub1_append_front2 _ hE2 (Or.inl ?hl2), ihr]
        case hl2 =>
          intro hne
          have h1 : (']' :: (body ++ ['\x07'])).getLast? = some '\x07' := by
            rw [show ']' :: (body ++ ['\x07']) = (']' :: body) ++ ['\x07'] from by simp]
            exact List.getLast?_concat _
          rw [List.getLast?_eq_getLast _ hne] at h1
          injection h1 with h2
          rw [h2]
          decide
        simp [oscSeq]
      | false =>
        have hE2 : ∀ c ∈ ']' :: body, c ≠ '\x1b' := by
          intro c hc heq
          subst heq
          rcases List.mem_cons.1 hc with h1 | h1
          · exact absurd h1.symm (by decide)
          · exact (hb _ h1).1 rfl
        have htm : tryMatch1 ('\x1b' :: ((']' :: body)
            ++ ('\x1b' :: '\\' :: renderSegs rest))) = none := by
          apply tryMatch1_none_of_escHead
          rw [show (']' :: body) ++ ('\x1b' :: '\\' :: renderSegs rest)
              = ']' :: (body ++ ('\x1b' :: '\\' :: renderSegs rest)) from by simp]
          exact parseUnit_notBracket _ (by decide)
        have htm2 : tryMatch1 ('\x1b' :: '\\' :: renderSegs rest) = none := by
          apply tryMatch1_none_of_escHead
          exact parseUnit_notBracket _ (by decide)
        have hsh : renderSegs (TermSeg.osc body false :: rest)
            = '\x1b' :: ((']' :: body) ++ ('\x1b' :: '\\' :: renderSegs rest)) := by
          show oscSeq body false ++ renderSegs rest = _
          simp [oscSeq]
        show sub1 (renderSegs (TermSeg.osc body false :: rest))
            = oscSeq body false ++ pass1Segs rest
        rw [hsh, sub1_cons_none htm, sub1_append_front2 _ hE2 (Or.inr ?hr2),
            sub1_cons_none htm2,
            show ('\\' : Char) :: renderSegs rest = ['\\'] ++ renderSegs rest from rfl,
            sub1_append_front2 (renderSegs rest) (by decide)
              (Or.inl (fun hne => by show isPySpace '\\' = false; decide)), ihr]
        case hr2 =>
          rw [List.dropWhile_cons, if_neg (by decide)]
          exact parseUnit_notBracket _ (by decide)
        simp [oscSeq]

/-! ## Step 2 over the result of step 1 -/

theorem sub2_pass1Segs : ∀ segs : List TermSeg, WFSegsB segs = true →
    sub2 (pass1Segs segs) = cleanSegs segs := by
  intro segs
  induction segs with
  | nil => intro h; rfl
  | cons s rest ih =>
    intro hwf
    obtain ⟨hs, hbd, hpl, hrest⟩ := WFSegsB_cons hwf
    have ihr := ih hrest
    cases s with
    | plain str =>
      show sub2 (str ++ pass1Segs rest) = str ++ cleanSegs rest
      rw [sub2_append_front _ (WFSegB_plain hs), ihr]
    | pag ws1 d1 ws2 d2 =>
      show sub2 ('\n' :: pass1Segs rest) = '\n' :: cleanSegs rest
      rw [sub2_cons_none (tryMatch2_none_of_head (by decide)), ihr]
    | csi p i f =>
      obtain ⟨hp, hi, hf, -⟩ := WFSegB_csi hs
      show sub2 (csiSeq p i f ++ pass1Segs rest) = cleanSegs rest
      rw [sub2_match (by simp [csiSeq]) (tryMatch2_csi p i _ f hp hi hf), ihr]
    | osc body bel =>
      show sub2 (oscSeq body bel ++ pass1Segs rest) = cleanSegs rest
      rw [sub2_match (by simp [oscSeq]) (tryMatch2_osc body bel _ (WFSegB_osc hs)), ihr]

/-- The sanitized transcript contains no ESC byte. -/
theorem cleanSegs_noEsc : ∀ segs : List TermSeg, WFSegsB segs = true →
    ∀ c ∈ cleanSegs segs, c ≠ '\x1b' := by
  intro segs
  induction segs with
  | nil =>
    intro h c hc
    simp [cleanSegs] at hc
  | cons s rest ih =>
    intro hwf c hc
    obtain ⟨hs, -, -, hrest⟩ := WFSegsB_cons hwf
    rcases List.mem_append.1 hc with h1 | h1
    · cases s with
      | plain str => exact WFSegB_plain hs c h1
      | pag ws1 d1 ws2 d2 =>
        have hcn : c = '\n' := by simpa [cleanSeg] using h1
        rw [hcn]
        decide
      | csi p i f => simp [cleanSeg] at h1
      | osc body bel => simp [cleanSeg] at h1
    · exact ih hrest c h1

/-! ## Claim C2: the sanitizer on pagination patterns followed by escapes -/

/-- C2: clean_terminal_output first replaces every pagination
line-overwrite sequence with a single newline and only then deletes
the remaining standard escape sequences (CSI and OSC alike): on any
input assembled from escape-free text, pagination-overwrite
sequences, and arbitrary well-formed CSI or OSC escape sequences, the
output is exactly the plain text with one newline where each
pagination pattern occurred and every escape sequence deleted, and it
contains no escape byte.  Well-formedness asks that text directly
before a pagination pattern not end in whitespace (the pattern's
leading whitespace run would otherwise absorb it) and that no escape
sequence is itself a cursor-back unit ESC [ digits D, the pagination
pattern's own constituent. -/
theorem C2_sanitizer_segments :
    ∀ segs : List TermSeg, WFSegsB segs = true →
      clean_terminal_output (String.mk (renderSegs segs)) = String.mk (cleanSegs segs)
      ∧ (∀ c ∈ (clean_terminal_output (String.mk (renderSegs segs))).data, c ≠ '\x1b') := by
  intro segs hwf
  have heq : clean_terminal_output (String.mk (renderSegs segs)) = String.mk (cleanSegs segs) := by
    show String.mk (sub2 (sub1 (renderSegs segs))) = String.mk (cleanSegs segs)
    rw [sub1_renderSegs segs hwf, sub2_pass1Segs segs hwf]
  refine ⟨heq, ?_⟩
  rw [heq]
  exact cleanSegs_noEsc segs hwf

/-- C2 witness: a transcript with two pagination patterns, a colour
escape and a title-setting OSC escape between them. -/
theorem C2_witness :
    clean_terminal_output "ab\x1b[42D \x1b[42D\x1b[31m\x1b]0;t\x07cd \x1b[7D  \x1b[7Def"
      = "ab\ncd\nef" := by
  have h := (C2_sanitizer_segments
    [TermSeg.plain "ab".data,
     TermSeg.pag [] ['4', '2'] [' '] ['4', '2'],
     TermSeg.csi ['3', '1'] [] 'm',
     TermSeg.osc ['0', ';', 't'] true,
     TermSeg.plain "cd".data,
     TermSeg.pag [' '] ['7'] [' ', ' '] ['7'],
     TermSeg.plain "ef".data] (by decide)).1
  have e1 : "ab\x1b[42D \x1b[42D\x1b[31m\x1b]0;t\x07cd \x1b[7D  \x1b[7Def"
      = String.mk (renderSegs
          [TermSeg.plain "ab".data,
           TermSeg.pag [] ['4', '2'] [' '] ['4', '2'],
           TermSeg.csi ['3', '1'] [] 'm',
           TermSeg.osc ['0', ';', 't'] true,
           TermSeg.plain "cd".data,
           TermSeg.pag [' '] ['7'] [' ', ' '] ['7'],
           TermSeg.plain "ef".data]) := by decide
  have e2 : String.mk (cleanSegs
          [TermSeg.plain "ab".data,
           TermSeg.pag [] ['4', '2'] [' '] ['4', '2'],
           TermSeg.csi ['3', '1'] [] 'm',
           TermSeg.osc ['0', ';', 't'] true,
           TermSeg.plain "cd".data,
           TermSeg.pag [' '] ['7'] [' ', ' '] ['7'],
           TermSeg.plain "ef".data]) = "ab\ncd\nef" := by decide
  rw [e1, h, e2]

/-! ## Claim C8: idempotence of the sanitizer -/

/-- C8 counterexample: deleting an escape sequence can juxtapose the
remaining bytes into a new escape sequence, so a second sanitizer pass
can delete more.  Here the first pass turns ESC ESC [ 1 m [ 3 1 m into
ESC [ 3 1 m, a complete colour escape that the second pass deletes. -/
theorem C8_counterexample :
    clean_terminal_output (clean_terminal_output "\x1b\x1b[1m[31m")
      ≠ clean_terminal_output "\x1b\x1b[1m[31m" := by decide

/-- C8 amended: the sanitizer is the identity on text containing no
ESC byte, so it is idempotent on every input whose first sanitization
contains no ESC byte; in particular sanitizing already-clean text
leaves it unchanged. -/
theorem C8_amended_idempotent_on_escape_free :
    ∀ s : String, (∀ c ∈ s.data, c ≠ '\x1b') →
      clean_terminal_output s = s ∧
      clean_terminal_output (clean_terminal_output s) = clean_terminal_output s := by
  intro s h
  have h1 : clean_terminal_output s = s := by
    obtain ⟨l⟩ := s
    show String.mk (sub2 (sub1 l)) = String.mk l
    have hs1 : sub1 l = l :=
      sub1_eq_self (fun c cs hsuff =>
        tryMatch1_none_of_noEsc (fun d hd => h d (hsuff.subset hd)))
    rw [hs1, sub2_eq_self_of_noEsc h]
  exact ⟨h1, by rw [h1]; exact h1⟩

/-- C8 witness: sanitizing clean text is the identity and idempotent. -/
theorem C8_witness :
    clean_terminal_output "Routing Table : Public\n1.1.1.1/32" = "Routing Table : Public\n1.1.1.1/32" :=
  (C8_amended_idempotent_on_escape_free "Routing Table : Public\n1.1.1.1/32" (by decide)).1

/-! ## Claim C3: the read loop against a scripted session -/

theorem readLoop_cons (chunk : String) (idx : Nat) (rest : List (String × Nat))
    (acc : String) (spaces : Nat) :
    readLoop ((chunk, idx) :: rest) acc spaces
      = if idx = 1 then readLoop rest (acc ++ chunk) (spaces + 1)
        else if idx = 2 then some (acc ++ chunk, spaces, ReadEnd.promptFound)
        else if idx = 0 then some (acc ++ chunk, spaces, ReadEnd.timedOut)
        else some (acc ++ chunk, spaces, ReadEnd.unknownIdx) := rfl

theorem readLoop_capture_extends :
    ∀ (script : List (String × Nat)) (acc : String) (spaces : Nat) (r : String × Nat × ReadEnd),
      readLoop script acc spaces = some r → ∃ s : String, r.1 = acc ++ s := by
  intro script
  induction script with
  | nil => intro acc spaces r h; exact Option.noConfusion h
  | cons p rest ih =>
    intro acc spaces r h
    obtain ⟨chunk, idx⟩ := p
    rw [readLoop_cons] at h
    by_cases h1 : idx = 1
    · rw [if_pos h1] at h
      obtain ⟨s, hs⟩ := ih (acc ++ chunk) (spaces + 1) r h
      exact ⟨chunk ++ s, by rw [hs, String.append_assoc]⟩
    · rw [if_neg h1] at h
      by_cases h2 : idx = 2
      · rw [if_pos h2] at h
        cases h
        exact ⟨chunk, rfl⟩
      · rw [if_neg h2] at h
        by_cases h0 : idx = 0
        · rw [if_pos h0] at h
          cases h
          exact ⟨chunk, rfl⟩
        · rw [if_neg h0] at h
          cases h
          exact ⟨chunk, rfl⟩

/-- C3: against a scripted session answering the pagination sentinel
twice and then the prompt, the read loop sends exactly two spaces,
finishes cleanly, and captures the concatenation of the three chunks;
every read iteration appends whatever text arrived to the capture no
matter which sentinel matched; and a timeout ends the loop with the
partial capture, reported as a timeout and not as a clean finish. -/
theorem C3_read_loop_state_machine :
    (∀ c1 c2 c3 : String,
        readLoop [(c1, 1), (c2, 1), (c3, 2)] "" 0
          = some (c1 ++ c2 ++ c3, 2, ReadEnd.promptFound))
    ∧ (∀ (chunk : String) (idx : Nat) (rest : List (String × Nat)) (acc : String)
          (spaces : Nat) (r : String × Nat × ReadEnd),
        readLoop ((chunk, idx) :: rest) acc spaces = some r →
        ∃ s : String, r.1 = (acc ++ chunk) ++ s)
    ∧ (∀ (chunk : String) (rest : List (String × Nat)) (acc : String) (spaces : Nat),
        readLoop ((chunk, 0) :: rest) acc spaces
          = some (acc ++ chunk, spaces, ReadEnd.timedOut))
    ∧ ReadEnd.timedOut ≠ ReadEnd.promptFound := by
  refine ⟨?_, ?_, ?_, by decide⟩
  · intro c1 c2 c3
    rfl
  · intro chunk idx rest acc spaces r h
    rw [readLoop_cons] at h
    by_cases h1 : idx = 1
    · rw [if_pos h1] at h
      exact readLoop_capture_extends rest (acc ++ chunk) (spaces + 1) r h
    · rw [if_neg h1] at h
      by_cases h2 : idx = 2
      · rw [if_pos h2] at h
        cases h
        exact ⟨"", (String.append_empty _).symm⟩
      · rw [if_neg h2] at h
        by_cases h0 : idx = 0
        · rw [if_pos h0] at h
          cases h
          exact ⟨"", (String.append_empty _).symm⟩
        · rw [if_neg h0] at h
          cases h
          exact ⟨"", (String.append_empty _).symm⟩
  · intro chunk rest acc spaces
    rfl

/-- C3 witness: the scripted pagination session of the spec. -/
theorem C3_witness :
    readLoop [("page1 ", 1), ("page2 ", 1), ("done", 2)] "" 0
      = some ("page1 page2 done", 2, ReadEnd.promptFound) :=
  ((C3_read_loop_state_machine).1 "page1 " "page2 " "done").trans (by decide)

/-! ## Claim C4: batch isolation -/

/-- C4: the batch produces exactly one label per target, in input
order; a failure while processing one target is caught at the
per-target boundary and becomes the generic processing-error label, so
with three targets whose second fails, the output still has length
three, the outer labels are correct and the middle one is the generic
error label. -/
theorem C4_batch_isolation :
    (∀ (proc : String → Except BatchErr String) (ips : List String),
        (runBatch proc ips).length = ips.length)
    ∧ (∀ (proc : String → Except BatchErr String) (ips : List String) (i : Nat),
        (runBatch proc ips)[i]? = (ips[i]?).map (fun ip => catchLabel (proc ip)))
    ∧ (∀ (proc : String → Except BatchErr String) (a b c la lc : String) (e : BatchErr),
        proc a = Except.ok la → proc b = Except.error e → proc c = Except.ok lc →
        runBatch proc [a, b, c] = [la, "处理时发生错误", lc]) := by
  refine ⟨?_, ?_, ?_⟩
  · intro proc ips
    simp [runBatch]
  · intro proc ips i
    simp [runBatch]
  · intro proc a b c la lc e ha hb hc
    simp [runBatch, catchLabel, ha, hb, hc]

/-- C4 witness: a concrete three-target batch whose second target
raises. -/
theorem C4_witness :
    runBatch (fun s => if s = "t2" then Except.error "boom" else Except.ok (s ++ "!"))
        ["t1", "t2", "t3"]
      = ["t1!", "处理时发生错误", "t3!"] :=
  (C4_batch_isolation).2.2 _ "t1" "t2" "t3" "t1!" "t3!" "boom" (by rfl) (by rfl) (by rfl)

/-! ## Claim C6: the output trimmer -/

/-- C6: on the spec's example the three trimming rules yield exactly
the routing table; and when the sanitized text does not start, after
leading whitespace, with the stripped command, echo removal is the
identity and never an error. -/
theorem C6_trimmer_rules :
    trimOutput "dis ip rou 1.1.1.1\n" "<Device>" "dis ip rou 1.1.1.1\n<routing table>\n<Device>"
        = "<routing table>"
    ∧ (∀ cmd text : String,
        isPrefixL (pyStrip cmd).data (pyLstrip text).data = false →
        removeEcho cmd text = text) := by
  refine ⟨by decide, ?_⟩
  intro cmd text h
  unfold removeEcho
  simp [h]

/-- C6 witness: echo removal is a no-op when the command never echoed. -/
theorem C6_witness : removeEcho "dis ip rou 1.1.1.1\n" "no echo here" = "no echo here" :=
  (C6_trimmer_rules).2 "dis ip rou 1.1.1.1\n" "no echo here" (by decide)

/-! ## Claim C7: connectivity checking around the batch -/

/-- C7 counterexample: the loop of main holds no per-target
connectivity check, so a session that dies after the first target does
not abort the batch: all three targets still produce labels, where the
claim demands the batch stop before the second.  Stated as the
negation of the claim's abort property over the connectivity-scripted
batch loop. -/
theorem C7_counterexample :
    ¬ (∀ (conn : Nat → Bool) (proc : String → Except BatchErr String)
          (ips : List String) (i : Nat),
        i < ips.length → conn i = false →
        (runBatchConn conn proc ips 0).length ≤ i) := by
  intro h
  have h1 := h (fun i => decide (i = 0)) (fun _ => Except.ok "L") ["a", "b", "c"] 1
    (by decide) (by decide)
  have h2 : (runBatchConn (fun i => decide (i = 0)) (fun _ => Except.ok "L")
      ["a", "b", "c"] 0).length = 3 := by decide
  omega

/-- C7 amended: connectivity is checked once, before the batch: a
session disconnected at the start yields no labels at all; the batch
loop itself never checks connectivity, so it always yields one label
per target, and a target processed after a disconnection yields the
generic processing-error label rather than aborting the batch. -/
theorem C7_amended_connectivity_checked_once_only :
    (∀ (promptOpt : Option String) (ips : List String)
        (proc : String → Except BatchErr String),
        mainRun false promptOpt ips proc = none)
    ∧ (∀ (conn : Nat → Bool) (proc : String → Except BatchErr String)
          (ips : List String) (i0 : Nat),
        (runBatchConn conn proc ips i0).length = ips.length)
    ∧ (∀ (conn : Nat → Bool) (proc : String → Except BatchErr String)
          (ips : List String) (i0 i : Nat),
        conn (i0 + i) = false → i < ips.length →
        (runBatchConn conn proc ips i0)[i]? = some "处理时发生错误") := by
  refine ⟨?_, ?_, ?_⟩
  · intro p ips proc
    rfl
  · intro conn proc ips
    induction ips with
    | nil => intro i0; rfl
    | cons ip rest ih =>
      intro i0
      simp only [runBatchConn, List.length_cons, ih (i0 + 1)]
  · intro conn proc ips
    induction ips with
    | nil =>
      intro i0 i hconn hi
      simp at hi
    | cons ip rest ih =>
      intro i0 i hconn hi
      cases i with
      | zero =>
        have hc0 : conn i0 = false := by simpa using hconn
        simp [runBatchConn, hc0]
      | succ j =>
        have hcj : conn ((i0 + 1) + j) = false := by
          rwa [show i0 + 1 + j = i0 + (j + 1) by omega]
        have hj : j < rest.length := by
          simpa using Nat.lt_of_succ_lt_succ (by simpa using hi)
        simpa [runBatchConn] using ih (i0 + 1) j hcj hj

/-- C7 witness: the amended behaviour at a concrete schedule where the
session dies after the first target. -/
theorem C7_witness :
    (runBatchConn (fun i => decide (i = 0)) (fun s => Except.ok s) ["a", "b", "c"] 0).length = 3
    ∧ (runBatchConn (fun i => decide (i = 0)) (fun s => Except.ok s) ["a", "b", "c"] 0)[1]?
        = some "处理时发生错误"
    ∧ mainRun false (some "<Device>") ["a"] (fun s => Except.ok s) = none := by
  refine ⟨?_, ?_, ?_⟩
  · exact ((C7_amended_connectivity_checked_once_only).2.1
      (fun i => decide (i = 0)) (fun s => Except.ok s) ["a", "b", "c"] 0).trans (by decide)
  · exact (C7_amended_connectivity_checked_once_only).2.2
      (fun i => decide (i = 0)) (fun s => Except.ok s) ["a", "b", "c"] 0 1 (by decide) (by decide)
  · exact (C7_amended_connectivity_checked_once_only).1 (some "<Device>") ["a"] (fun s => Except.ok s)

/-! ## Claim C9: prompt detection and its fatality -/

/-- C9: get_prompt reads the cursor row from column 1 up to but
excluding the cursor column, strips it, and fails exactly when the
stripped text is empty; on that failure the run produces no labels at
all. -/
theorem C9_no_prompt_fatal :
    ∀ (rowText : String) (currentColumn : Nat),
      (get_prompt rowText currentColumn = none
        ↔ pyStrip (String.mk (rowText.data.take (currentColumn - 1))) = "")
      ∧ (∀ (ips : List String) (proc : String → Except BatchErr String) (conn : Bool),
          get_prompt rowText currentColumn = none →
          mainRun conn (get_prompt rowText currentColumn) ips proc = none) := by
  intro rowText col
  constructor
  · unfold get_prompt
    by_cases h : pyStrip (String.mk (rowText.data.take (col - 1))) = ""
    · simp [h]
    · simp [h]
  · intro ips proc conn hnone
    rw [hnone]
    unfold mainRun
    by_cases hc : conn = false
    · rw [if_pos hc]
    · rw [if_neg hc]

/-- C9 witness: an all-whitespace cursor row yields NoPrompt and an
aborted run. -/
theorem C9_witness :
    get_prompt "   " 3 = none
    ∧ mainRun true (get_prompt "   " 3) ["1.2.3.4"] (fun s => Except.ok s) = none := by
  have h := C9_no_prompt_fatal "   " 3
  have h1 : get_prompt "   " 3 = none := h.1.mpr (by decide)
  exact ⟨h1, h.2 ["1.2.3.4"] (fun s => Except.ok s) true h1⟩

/-! ## Claim C5: the routing-table parser -/

theorem parseLoop_cons (line : String) (rest : List String) (b : Bool) :
    parseLoop (line :: rest) b
      = if isHeaderLine (pyStrip line) = true then parseLoop rest true
        else if b = true ∧ pyStrip line ≠ "" then
          (if h : 7 ≤ (pySplitWs (pyStrip line)).length then
             some ⟨(pySplitWs (pyStrip line))[0], (pySplitWs (pyStrip line))[1],
                   (pySplitWs (pyStrip line))[4], (pySplitWs (pyStrip line))[5],
                   (pySplitWs (pyStrip line))[6]⟩
           else parseLoop rest b)
        else parseLoop rest b := rfl

theorem parseLoop_no_header :
    ∀ lines : List String, (∀ l ∈ lines, isHeaderLine (pyStrip l) = false) →
      parseLoop lines false = none := by
  intro lines
  induction lines with
  | nil => intro h; rfl
  | cons line rest ih =>
    intro h
    rw [parseLoop_cons, h line (List.mem_cons_self line rest), if_neg (by simp),
        if_neg (by simp)]
    exact ih (fun l hl => h l (List.mem_cons_of_mem line hl))

theorem parseLoop_skip_pre :
    ∀ (pre tailL : List String), (∀ l ∈ pre, isHeaderLine (pyStrip l) = false) →
      parseLoop (pre ++ tailL) false = parseLoop tailL false := by
  intro pre
  induction pre with
  | nil => intro t h; rfl
  | cons p ps ih =>
    intro t h
    rw [List.cons_append, parseLoop_cons, h p (List.mem_cons_self p ps), if_neg (by simp),
        if_neg (by simp)]
    exact ih t (fun l hl => h l (List.mem_cons_of_mem p hl))

theorem parseLoop_skip_junk :
    ∀ (junk tailL : List String),
      (∀ l ∈ junk, isHeaderLine (pyStrip l) = true ∨ pyStrip l = ""
          ∨ (pySplitWs (pyStrip l)).length < 7) →
      parseLoop (junk ++ tailL) true = parseLoop tailL true := by
  intro junk
  induction junk with
  | nil => intro t h; rfl
  | cons j js ih =>
    intro t h
    have hrest : parseLoop (js ++ t) true = parseLoop t true :=
      ih t (fun l hl => h l (List.mem_cons_of_mem j hl))
    by_cases hhd : isHeaderLine (pyStrip j) = true
    · rw [List.cons_append, parseLoop_cons, hhd, if_pos rfl]
      exact hrest
    · by_cases hemp : pyStrip j = ""
      · rw [List.cons_append, parseLoop_cons, if_neg (by simp [hhd]),
            if_neg (by simp [hemp])]
        exact hrest
      · have h7 : (pySplitWs (pyStrip j)).length < 7 := by
          rcases h j (List.mem_cons_self j js) with h1 | h1 | h1
          · exact absurd h1 hhd
          · exact absurd h1 hemp
          · exact h1
        rw [List.cons_append, parseLoop_cons, if_neg (by simp [hhd]),
            if_pos ⟨rfl, hemp⟩, dif_neg (by omega)]
        exact hrest

/-- C5: the parser returns None when no line passes the header test;
parse_routing_info is the line loop run on the split lines with the
header not yet seen; and on lines made of non-header text, a header
line, skippable lines (header-shaped, blank, or fewer than 7 fields),
then a data row of at least 7 fields, the result maps whitespace
fields 0, 1, 4, 5, 6 of that first matching row to destination,
protocol, flag, nexthop and interface, ignoring everything after it;
finally the spec's concrete example. -/
theorem C5_parse_routing_info :
    (∀ output : String,
        (∀ line ∈ pySplitLines output, isHeaderLine (pyStrip line) = false) →
        parse_routing_info output = none)
    ∧ (∀ output : String, parse_routing_info output = parseLoop (pySplitLines output) false)
    ∧ (∀ (pre : List String) (hline : String) (junk : List String) (row : String)
          (rest : List String),
        (∀ l ∈ pre, isHeaderLine (pyStrip l) = false) →
        isHeaderLine (pyStrip hline) = true →
        (∀ l ∈ junk, isHeaderLine (pyStrip l) = true ∨ pyStrip l = ""
            ∨ (pySplitWs (pyStrip l)).length < 7) →
        isHeaderLine (pyStrip row) = false → pyStrip row ≠ "" →
        ∀ h7 : 7 ≤ (pySplitWs (pyStrip row)).length,
        parseLoop (pre ++ hline :: (junk ++ row :: rest)) false
          = some ⟨(pySplitWs (pyStrip row))[0], (pySplitWs (pyStrip row))[1],
                  (pySplitWs (pyStrip row))[4], (pySplitWs (pyStrip row))[5],
                  (pySplitWs (pyStrip row))[6]⟩)
    ∧ parse_routing_info
        "Destination/Mask        Proto  Pre Cost      Flags NextHop         Interface\n 1.1.1.1/32  IBGP    255  0          RD   61.133.137.1    GigabitEthernet1/0/1\n 2.2.2.2/32  OSPF    10   2          D    10.0.0.1        GigabitEthernet2/0/2"
      = some ⟨"1.1.1.1/32", "IBGP", "RD", "61.133.137.1", "GigabitEthernet1/0/1"⟩ := by
  refine ⟨?_, fun output => rfl, ?_, by decide⟩
  · intro output h
    exact parseLoop_no_header (pySplitLines output) h
  · intro pre hline junk row rest hpre hh hjunk hrow hrowne h7
    rw [parseLoop_skip_pre pre _ hpre, parseLoop_cons, hh, if_pos rfl,
        parseLoop_skip_junk junk _ hjunk, parseLoop_cons, hrow, if_neg (by simp),
        if_pos ⟨rfl, hrowne⟩, dif_pos h7]

/-- C5 witness: a run with leading banner text, a blank line and a
short line between the header and the data row, and a second data row
that is ignored. -/
theorem C5_witness :
    parseLoop ["Routing Table : Public", "Destination/Mask  Proto Pre Cost Flags NextHop Interface",
        "", "short row", " 1.1.1.1/32 IBGP 255 0 RD 61.133.137.1 GE1/0/1",
        " 2.2.2.2/32 OSPF 10 2 D 10.0.0.1 GE2/0/2"] false
      = some ⟨"1.1.1.1/32", "IBGP", "RD", "61.133.137.1", "GE1/0/1"⟩ := by
  have h := (C5_parse_routing_info).2.2.1 ["Routing Table : Public"]
    "Destination/Mask  Proto Pre Cost Flags NextHop Interface" ["", "short row"]
    " 1.1.1.1/32 IBGP 255 0 RD 61.133.137.1 GE1/0/1"
    [" 2.2.2.2/32 OSPF 10 2 D 10.0.0.1 GE2/0/2"]
    (by decide) (by decide) (by decide) (by decide) (by decide) (by decide)
  exact h.trans (by decide)

/-! ## Claim C1: the classification decision table -/

theorem classifyRoute_some (r : RouteInfo) (f : String → String) :
    classifyRoute (some r) f
      = if r.protocol = "IBGP" then (r.nexthop, 0)
        else if r.flag = "D" ∧ r.interface ≠ "" then
          (descLabel r.interface (f r.interface), 1)
        else if r.nexthop ≠ "" ∧ pyStartsWith r.nexthop "124" = true then ("新城", 0)
        else if r.nexthop ≠ "" ∧ pyStartsWith r.nexthop "202" = true then ("出省地址", 0)
        else ("未匹配任何已知规则", 0) := rfl

theorem descLabelGo_cons (intf line : String) (rest : List String) :
    descLabelGo intf (line :: rest)
      = if isPrefixL "description dT:".data (pyStrip line).data = true then
          (match searchAHHF (pyStrip line).data with
           | some cap => String.mk cap
           | none => "SR描述未匹配提取规则")
        else descLabelGo intf rest := rfl

theorem descLabelGo_no_marker :
    ∀ (intf : String) (lines : List String),
      (∀ l ∈ lines, isPrefixL "description dT:".data (pyStrip l).data = false) →
      descLabelGo intf lines = "未找到接口 " ++ intf ++ " 的\x27description dT:\x27" := by
  intro intf lines
  induction lines with
  | nil => intro h; rfl
  | cons line rest ih =>
    intro h
    rw [descLabelGo_cons, h line (List.mem_cons_self line rest), if_neg (by simp)]
    exact ih (fun l hl => h l (List.mem_cons_of_mem line hl))

theorem not_starts124_of_starts202 {s : String} (h : pyStartsWith s "202" = true) :
    pyStartsWith s "124" = false := by
  unfold pyStartsWith at h ⊢
  cases hd : s.data with
  | nil =>
    rw [hd] at h
    exact absurd h (by decide)
  | cons c cs =>
    rw [hd] at h
    have h2 : (('2' == c) && isPrefixL ['0', '2'] cs) = true := h
    have hc : c = '2' := (beq_iff_eq.mp (Bool.and_eq_true_iff.mp h2).1).symm
    subst hc
    show (('1' == '2') && isPrefixL ['2', '4'] cs) = false
    rw [show (('1' : Char) == '2') = false from by decide, Bool.false_and]

/-- C1: the decision table of main, first match wins.  A missing route
yields the route-not-found label and no rule runs; IBGP yields the
nexthop verbatim with no follow-up query; otherwise flag D with a
non-empty interface issues exactly one follow-up query and labels with
the extraction from its output, where the extraction of the first
marker line is the AH-HF- fragment, a marker line without the pattern
yields the fixed unmatched-description placeholder and a missing
marker line the fixed not-found-for-interface placeholder; otherwise a
nexthop starting 124 is the new-access category, then 202 the
inter-province category, and otherwise the fixed unmatched-rule
placeholder. -/
theorem C1_classification_decision_table :
    (∀ f : String → String, classifyRoute none f = ("未找到路由信息", 0))
    ∧ (∀ (r : RouteInfo) (f : String → String), r.protocol = "IBGP" →
        classifyRoute (some r) f = (r.nexthop, 0))
    ∧ (∀ (r : RouteInfo) (f : String → String), r.protocol ≠ "IBGP" →
        r.flag = "D" → r.interface ≠ "" →
        classifyRoute (some r) f = (descLabel r.interface (f r.interface), 1))
    ∧ (∀ (intf out : String),
        (∀ line ∈ pySplitLines out,
            isPrefixL "description dT:".data (pyStrip line).data = false) →
        descLabel intf out = "未找到接口 " ++ intf ++ " 的\x27description dT:\x27")
    ∧ (∀ (intf line : String) (rest : List String),
        isPrefixL "description dT:".data (pyStrip line).data = true →
        searchAHHF (pyStrip line).data = none →
        descLabelGo intf (line :: rest) = "SR描述未匹配提取规则")
    ∧ descLabel "GE0/0/1" "description dT:AH-HF-CityA.rack1" = "CityA"
    ∧ (∀ (r : RouteInfo) (f : String → String), r.protocol ≠ "IBGP" →
        ¬(r.flag = "D" ∧ r.interface ≠ "") → r.nexthop ≠ "" →
        pyStartsWith r.nexthop "124" = true →
        classifyRoute (some r) f = ("新城", 0))
    ∧ (∀ (r : RouteInfo) (f : String → String), r.protocol ≠ "IBGP" →
        ¬(r.flag = "D" ∧ r.interface ≠ "") → r.nexthop ≠ "" →
        pyStartsWith r.nexthop "202" = true →
        classifyRoute (some r) f = ("出省地址", 0))
    ∧ (∀ (r : RouteInfo) (f : String → String), r.protocol ≠ "IBGP" →
        ¬(r.flag = "D" ∧ r.interface ≠ "") →
        ¬(r.nexthop ≠ "" ∧ pyStartsWith r.nexthop "124" = true) →
        ¬(r.nexthop ≠ "" ∧ pyStartsWith r.nexthop "202" = true) →
        classifyRoute (some r) f = ("未匹配任何已知规则", 0)) := by
  refine ⟨fun f => rfl, ?_, ?_, ?_, ?_, by decide, ?_, ?_, ?_⟩
  · intro r f h
    rw [classifyRoute_some, if_pos h]
  · intro r f h1 h2 h3
    rw [classifyRoute_some, if_neg h1, if_pos ⟨h2, h3⟩]
  · intro intf out h
    exact descLabelGo_no_marker intf (pySplitLines out) h
  · intro intf line rest hmark hsearch
    rw [descLabelGo_cons, hmark, if_pos rfl, hsearch]
  · intro r f h1 h2 h3 h4
    rw [classifyRoute_some, if_neg h1, if_neg h2, if_pos ⟨h3, h4⟩]
  · intro r f h1 h2 h3 h4
    have h124 : ¬(r.nexthop ≠ "" ∧ pyStartsWith r.nexthop "124" = true) := by
      intro hcontra
      have hcon2 := hcontra.2
      rw [not_starts124_of_starts202 h4] at hcon2
      exact Bool.noConfusion hcon2
    rw [classifyRoute_some, if_neg h1, if_neg h2, if_neg h124, if_pos ⟨h3, h4⟩]
  · intro r f h1 h2 h3 h4
    rw [classifyRoute_some, if_neg h1, if_neg h2, if_neg h3, if_neg h4]

/-- C1 witness: the four spec examples run through the decision
table. -/
theorem C1_witness :
    classifyRoute (some ⟨"61.133.137.0/24", "IBGP", "RD", "61.133.137.1", "GE1/0/1"⟩)
        (fun _ => "") = ("61.133.137.1", 0)
    ∧ classifyRoute (some ⟨"d", "BGP", "D", "10.0.0.1", "GE0/0/1"⟩)
        (fun _ => "description dT:AH-HF-CityA.rack1") = ("CityA", 1)
    ∧ classifyRoute none (fun _ : String => "") = ("未找到路由信息", 0)
    ∧ classifyRoute (some ⟨"d", "BGP", "RD", "124.0.0.1", "GE1"⟩) (fun _ => "")
        = ("新城", 0) := by
  refine ⟨?_, ?_, ?_, ?_⟩
  · exact (C1_classification_decision_table).2.1
      ⟨"61.133.137.0/24", "IBGP", "RD", "61.133.137.1", "GE1/0/1"⟩ (fun _ => "") rfl
  · have h3 := (C1_classification_decision_table).2.2.1
      ⟨"d", "BGP", "D", "10.0.0.1", "GE0/0/1"⟩
      (fun _ => "description dT:AH-HF-CityA.rack1") (by decide) rfl (by decide)
    exact h3.trans (by decide)
  · exact (C1_classification_decision_table).1 (fun _ : String => "")
  · exact (C1_classification_decision_table).2.2.2.2.2.2.1
      ⟨"d", "BGP", "RD", "124.0.0.1", "GE1"⟩ (fun _ => "")
      (by decide) (by decide) (by decide) (by decide)

/-! ## Claim C10: empty command output short-circuits -/

/-- C10: an empty cleaned output yields the fixed no-output label with
no follow-up query issued, that label is distinct from the
route-not-found label, and only a non-empty output reaches the parser
and the classification rules. -/
theorem C10_empty_output_short_circuit :
    (∀ followUp : String → String, processIp "" followUp = ("命令无输出", 0))
    ∧ ("命令无输出" : String) ≠ "未找到路由信息"
    ∧ (∀ (out : String) (followUp : String → String), out ≠ "" →
        processIp out followUp = classifyRoute (parse_routing_info out) followUp) := by
  refine ⟨fun f => rfl, by decide, ?_⟩
  intro out f h
  unfold processIp
  rw [if_neg h]

/-- C10 witness: the empty and the non-empty branch at concrete
inputs. -/
theorem C10_witness :
    processIp "" (fun _ => "") = ("命令无输出", 0)
    ∧ processIp "x" (fun _ => "")
        = classifyRoute (parse_routing_info "x") (fun _ => "") :=
  ⟨(C10_empty_output_short_circuit).1 (fun _ => ""),
   (C10_empty_output_short_circuit).2.2 "x" (fun _ => "") (by decide)⟩

end SecureCrt
